import Mathlib

/-!
Auto-increment ID sequence of `elasticsearchv5`.

A shallow embedding of `sequence.go` and of the parts of `elasticsearch.go`
it touches (`SetSequenceAutoIncrement`, `Index`, `BulkIndex`), together with
the properties of the ID sequence generator.

Conventions of the embedding:

* Go `int` is 64 bit wide. The one arithmetic operation of the package on an
  `int`, the product `sequenceCacheSize * 2` of `newSequence`, wraps around
  (`wrapInt`), and `strconv.Atoi` has the `int64` range. Versions and channel
  lengths are only compared and converted, and are kept as they are. The
  limit that the runtime puts on the memory of a channel depends on the
  platform and is not part of the embedding.
* The store is a state that is passed explicitly; every store call can fail
  when its operation is listed in `Store.faults`.
* A Go function returning `(T, error)` returns `Except Error T`, or the pair
  of the store and an optional error when it writes to the store; a function
  that can panic or block forever returns `Outcome`.
* The goroutines that `newSequence` and `GetID` start are scheduled in two
  ways: one after the other (`SetSequenceAutoIncrementSeq`, `GetID`,
  `GetIDs`), and in every interleaving (`Step`).
-/

deriving instance DecidableEq for Except

namespace Elasticsearchv5

/-! ## `strconv` -/

/-- The two error kinds of `strconv.NumError`. -/
inductive NumError where
  | ErrSyntax
  | ErrRange
  deriving DecidableEq, Repr

/-- Largest value of a 64 bit Go `int`. -/
def maxInt : Int := 9223372036854775807

/-- The value of a 64 bit Go `int` computation whose exact result is `x`:
the result wraps around modulo `2 ^ 64` into the range of `int`. -/
def wrapInt (x : Int) : Int :=
  (x + 9223372036854775808) % 18446744073709551616 - 9223372036854775808

/-- Largest value of `uint64`. -/
def maxUint64 : Nat := 18446744073709551615

/-- The decimal digit character of `d` (`'0' + d`). -/
def digitChar (d : Nat) : Char := Char.ofNat (48 + d)

/-- The digit loop of `strconv.formatBits` for base 10: the digits of `n`,
most significant first, are put in front of `acc`. The first argument bounds
the number of iterations; `n + 1` is always enough. -/
def formatBits : Nat → Nat → List Char → List Char
  | 0, _, acc => acc
  | fuel + 1, n, acc =>
    if n < 10 then digitChar n :: acc
    else formatBits fuel (n / 10) (digitChar (n % 10) :: acc)

/-- The decimal digits of a natural number. -/
def decimal (n : Nat) : List Char := formatBits (n + 1) n []

/-- Go `strconv.Itoa`. -/
def Itoa (i : Int) : String :=
  if i < 0 then String.mk ('-' :: decimal i.natAbs) else String.mk (decimal i.natAbs)

/-- The loop of `strconv.ParseUint(s, 10, 64)`: the first byte that is not a
decimal digit is a syntax error, an overflow of `uint64` a range error. -/
def parseUintLoop : List Char → Nat → Except NumError Nat
  | [], n => .ok n
  | c :: cs, n =>
    if 48 ≤ c.toNat ∧ c.toNat ≤ 57 then
      if maxUint64 / 10 + 1 ≤ n then .error .ErrRange
      else if maxUint64 < n * 10 + (c.toNat - 48) then .error .ErrRange
      else parseUintLoop cs (n * 10 + (c.toNat - 48))
    else .error .ErrSyntax

/-- Go `strconv.ParseUint(s, 10, 64)`. -/
def ParseUint (s : List Char) : Except NumError Nat :=
  if s = [] then .error .ErrSyntax else parseUintLoop s 0

/-- Go `strconv.ParseInt(s, 10, 0)` on a 64 bit platform. -/
def ParseInt (s : List Char) : Except NumError Int :=
  match s with
  | [] => .error .ErrSyntax
  | c :: cs =>
    let neg := decide (c = '-')
    let rest := if c = '+' ∨ c = '-' then cs else c :: cs
    match ParseUint rest with
    | .error e => .error e
    | .ok un =>
      if !neg && decide (maxInt.toNat + 1 ≤ un) then .error .ErrRange
      else if neg && decide (maxInt.toNat + 1 < un) then .error .ErrRange
      else .ok (if neg then -(un : Int) else (un : Int))

/-- Go `strconv.Atoi`. Its fast path for short strings computes the same
result as `ParseInt(s, 10, 0)`. -/
def Atoi (s : String) : Except NumError Int := ParseInt s.data

/-! ## The store -/

/-- Store calls that can fail with a transport or store error. -/
inductive Op where
  | indexExists
  | createIndex
  | docExists
  | search
  | bulk
  | index
  deriving DecidableEq, Repr

/-- Errors returned by the functions of the package: a failed store call, an
error of `strconv.Atoi`, a bulk request without actions, and a request that
the client library refuses because a required field is empty. -/
inductive Error where
  | store (op : Op)
  | num (e : NumError)
  | noBulkActions
  | missingFields
  deriving DecidableEq, Repr

/-- What a goroutine can come to: a result, a panic, or waiting forever on
the cache channel. -/
inductive Outcome (α : Type) where
  | ok (a : α)
  | panic
  | blocked
  deriving DecidableEq, Repr

/-- A stored document: its index, type and identifier, and the version
number the engine keeps for it. -/
structure Document where
  index : String
  typ : String
  id : String
  version : Nat
  deriving DecidableEq, Repr

/-- The search engine: the stored documents, the existing indices, the
calls that fail at present, and how many identifiers it has generated. -/
structure Store where
  docs : List Document
  indices : List String
  faults : List Op
  generated : Nat
  deriving DecidableEq, Repr

/-- One entry of a bulk response. -/
structure BulkResponseItem where
  Id : String
  Version : Nat
  Status : Nat
  deriving DecidableEq, Repr

/-- The response of a bulk request (`elastic.BulkResponse`). -/
structure BulkResponse where
  Items : List BulkResponseItem
  deriving DecidableEq, Repr

/-- Whether `d` is the document `index/typ/id`. -/
def Document.is (d : Document) (index typ id : String) : Bool :=
  d.index == index && d.typ == typ && d.id == id

/-- The version of document `index/typ/id`, 0 when there is none. -/
def versionOf (index typ id : String) : List Document → Nat
  | [] => 0
  | d :: ds => if d.is index typ id then d.version else versionOf index typ id ds

/-- Index one document: a new document gets version 1, an existing one
gets its version increased by one. Returns the new version. -/
def putDoc (index typ id : String) : List Document → List Document × Nat
  | [] => ([⟨index, typ, id, 1⟩], 1)
  | d :: ds =>
    if d.is index typ id then ({ d with version := d.version + 1 } :: ds, d.version + 1)
    else ((d :: (putDoc index typ id ds).1), (putDoc index typ id ds).2)

/-- Whether document `index/typ/id` is in the store. -/
def Store.hasDoc (st : Store) (index typ id : String) : Bool :=
  st.docs.any (fun d => d.is index typ id)

/-- The version of document `index/typ/id`, 0 when there is none. -/
def Store.version (st : Store) (index typ id : String) : Nat :=
  versionOf index typ id st.docs

/-- The identifiers of the documents of collection `index/typ`. -/
def Store.ids (st : Store) (index typ : String) : List String :=
  (st.docs.filter (fun d => d.index == index && d.typ == typ)).map (fun d => d.id)

/-- Stand-in for the identifier the engine generates for the `n`-th
document that is indexed without one. -/
def autoID (n : Nat) : String := "auto-" ++ Itoa n

/-- The engine indexes one document. Without identifier the document is a
new one, with a generated identifier and version 1. Status 201 is
"created", 200 is "updated". -/
def Store.indexDoc (st : Store) (index typ id : String) : Store × BulkResponseItem :=
  if id = "" then
    ({ st with docs := st.docs ++ [⟨index, typ, autoID st.generated, 1⟩]
               generated := st.generated + 1 },
     ⟨autoID st.generated, 1, 201⟩)
  else
    let r := putDoc index typ id st.docs
    ({ st with docs := r.1 }, ⟨id, r.2, if r.2 = 1 then 201 else 200⟩)

/-! ## The bulk service of the client library -/

/-- An index action of a bulk request (`elastic.BulkIndexRequest`). -/
structure BulkIndexRequest where
  index : String
  typ : String
  id : String
  doc : Option String
  deriving DecidableEq, Repr

/-- Library `elastic.NewBulkIndexRequest()`. -/
def NewBulkIndexRequest : BulkIndexRequest := ⟨"", "", "", none⟩

/-- Library `elastic.BulkService`: default index and type, and the actions added. -/
structure BulkService where
  index : String
  typ : String
  requests : List BulkIndexRequest
  deriving DecidableEq, Repr

/-- Library `client.Bulk()`: a new bulk service without actions. -/
def Bulk : BulkService := ⟨"", "", []⟩

/-- Library `BulkService.Index`. -/
def BulkService.Index (b : BulkService) (index : String) : BulkService :=
  { b with index := index }

/-- Library `BulkService.Type`. -/
def BulkService.Type (b : BulkService) (typ : String) : BulkService :=
  { b with typ := typ }

/-- Library `BulkService.Add`. -/
def BulkService.Add (b : BulkService) (q : BulkIndexRequest) : BulkService :=
  { b with requests := b.requests ++ [q] }

/-- Library `BulkService.NumberOfActions`. -/
def BulkService.NumberOfActions (b : BulkService) : Nat := b.requests.length

/-- The engine executes the actions of a bulk request in order. An action
without index or type takes the default of the service. -/
def execRequests (index typ : String) :
    List BulkIndexRequest → Store → Store × List BulkResponseItem
  | [], st => (st, [])
  | q :: qs, st =>
    let r := st.indexDoc (if q.index = "" then index else q.index)
      (if q.typ = "" then typ else q.typ) q.id
    let rest := execRequests index typ qs r.1
    (rest.1, r.2 :: rest.2)

/-- Library `BulkService.Do`: without actions it returns an error and sends nothing;
a transport error gives no response; otherwise the actions are executed and
the service is reset. Go's `(res, err)` is the pair of options. -/
def BulkService.Do (b : BulkService) (st : Store) :
    BulkService × Store × Option BulkResponse × Option Error :=
  if b.NumberOfActions = 0 then (b, st, none, some .noBulkActions)
  else if Op.bulk ∈ st.faults then (b, st, none, some (.store .bulk))
  else
    let r := execRequests b.index b.typ b.requests st
    ({ b with requests := [] }, r.1, some ⟨r.2⟩, none)

/-- Library `BulkResponse.Succeeded`: the items with a status from 200 to 299. The
method reads `r.Items`, so on a nil response it is a nil pointer dereference:
`none` here. -/
def Succeeded (r : Option BulkResponse) : Option (List BulkResponseItem) :=
  match r with
  | none => none
  | some res => some (res.Items.filter (fun item => 200 ≤ item.Status ∧ item.Status ≤ 299))

/-- Library `BulkIndexRequest.Id`. -/
def BulkIndexRequest.Id (q : BulkIndexRequest) (id : String) : BulkIndexRequest :=
  { q with id := id }

/-- Library `BulkIndexRequest.Doc`. -/
def BulkIndexRequest.Doc (q : BulkIndexRequest) (doc : String) : BulkIndexRequest :=
  { q with doc := some doc }

/-- Library `BulkIndexRequest.Index`. -/
def BulkIndexRequest.Index (q : BulkIndexRequest) (index : String) : BulkIndexRequest :=
  { q with index := index }

/-- Library `BulkIndexRequest.Type`. -/
def BulkIndexRequest.Type (q : BulkIndexRequest) (typ : String) : BulkIndexRequest :=
  { q with typ := typ }

/-! ## `sequence.go` -/

/-- The struct `sequence`. Of `s.client` the two fields that the sequence
reads are kept. `cache` is the content of the channel, oldest value first,
and `cacheCap` its capacity. -/
structure sequence where
  clientIndex : String
  clientDocType : String
  docType : String
  id : String
  cache : List Int
  cacheCap : Int
  cacheSize : Int
  deriving DecidableEq, Repr

/-- The struct `Elastic` (without url, mapping and context). -/
structure Elastic where
  index : String
  docType : String
  bulk : Option BulkService
  bulkSize : Int
  sequence : Option sequence
  sequenceCacheSize : Int
  deriving DecidableEq, Repr

/-- Method `Elastic.IndexExists`. -/
def IndexExists (st : Store) (index : String) : Except Error Bool :=
  if Op.indexExists ∈ st.faults then .error (.store .indexExists)
  else .ok (decide (index ∈ st.indices))

/-- Method `Elastic.CreateIndex`: the engine acknowledges every index it creates. -/
def CreateIndex (st : Store) (index : String) : Store × Option Error :=
  if Op.createIndex ∈ st.faults then (st, some (.store .createIndex))
  else ({ st with indices := st.indices ++ [index] }, none)

/-- Whether `a` comes before `b` in the order of the bytes. -/
def lexLess : List Char → List Char → Bool
  | _, [] => false
  | [], _ :: _ => true
  | x :: xs, y :: ys => decide (x.toNat < y.toNat) || (x == y && lexLess xs ys)

/-- The sort of the query of `getMaxID`: by length of the `_uid`, then by
the `_uid`. All documents searched have the same type, so the `_uid`
(`type#id`) is compared through the identifier. -/
def uidLess (a b : String) : Bool :=
  decide (a.length < b.length) || (a.length == b.length && lexLess a.data b.data)

/-- The order of the search on lists of bytes: shorter first, then by bytes. -/
def Below (a b : List Char) : Prop :=
  a.length < b.length ∨ (a.length = b.length ∧ lexLess a b = true)

/-- The first identifier in descending order of `uidLess`. -/
def topHit : List String → Option String
  | [] => none
  | x :: xs =>
    match topHit xs with
    | none => some x
    | some y => if uidLess y x then some x else some y

/-- Method `Elastic.Search` with the query of `getMaxID` (`match_all`, size 1,
sorted descending): the identifiers of the hits. -/
def Search (st : Store) (index typ : String) : Except Error (List String) :=
  if Op.search ∈ st.faults then .error (.store .search)
  else .ok (topHit (st.ids index typ)).toList

/-- The loop of `getIDs`: `n` index actions for the counter document. -/
def getIDsLoop (s : sequence) : Nat → BulkService → BulkService
  | 0, b => b
  | n + 1, b => getIDsLoop s n (b.Add (NewBulkIndexRequest.Id s.id))

/-- Method `sequence.getIDs`. -/
def getIDs (s : sequence) (st : Store) (size : Int) :
    Store × Option BulkResponse × Option Error :=
  let b := (Bulk.Index "sequence").Type s.docType
  (getIDsLoop s size.toNat b).Do st |>.2

/-- The send `s.cache <- v`: a send on a full channel waits. -/
def send (s : sequence) (v : Int) : Outcome sequence :=
  if (s.cache.length : Int) < s.cacheCap then .ok { s with cache := s.cache ++ [v] }
  else .blocked

/-- The loop of `loadIDs` over the succeeded items. -/
def sendAll (s : sequence) : List BulkResponseItem → Outcome sequence
  | [] => .ok s
  | r :: rs =>
    match send s (r.Version : Int) with
    | .ok s1 => sendAll s1 rs
    | .panic => .panic
    | .blocked => .blocked

/-- Method `sequence.loadIDs`, run to its end. The error of `getIDs` is only
logged; `res.Succeeded()` is then called on the response. -/
def loadIDs (s : sequence) (st : Store) (size : Int) : Outcome (sequence × Store) :=
  let r := getIDs s st size
  match Succeeded r.2.1 with
  | none => .panic
  | some items =>
    match sendAll s items with
    | .ok s1 => .ok (s1, r.1)
    | .panic => .panic
    | .blocked => .blocked

/-- The loop of `getMaxID` over the hits. -/
def getMaxIDLoop : List String → Int → Except Error Int
  | [], id => .ok id
  | hit :: hits, _ =>
    match Atoi hit with
    | .error e => .error (.num e)
    | .ok id => getMaxIDLoop hits id

/-- Method `sequence.getMaxID`. -/
def getMaxID (s : sequence) (st : Store) : Except Error Int :=
  match Search st s.clientIndex s.clientDocType with
  | .error e => .error e
  | .ok hits => getMaxIDLoop hits 0

/-- Method `sequence.checkSequenceIndex`. The error of `CreateIndex` is dropped. -/
def checkSequenceIndex (st : Store) : Store × Option Error :=
  match IndexExists st "sequence" with
  | .error e => (st, some e)
  | .ok false => ((CreateIndex st "sequence").1, none)
  | .ok true => (st, none)

/-- Method `sequence.writeLastID`. -/
def writeLastID (s : sequence) (st : Store) (lastID : Int) : Store × Option Error :=
  let r := getIDs s st lastID
  (r.1, r.2.2)

/-- The call `client.Exists().Index("sequence").Type(s.docType).Id(s.id).Do`.
The exists service refuses an empty type or identifier. -/
def docExists (s : sequence) (st : Store) : Except Error Bool :=
  if s.docType = "" ∨ s.id = "" then .error .missingFields
  else if Op.docExists ∈ st.faults then .error (.store .docExists)
  else .ok (st.hasDoc "sequence" s.docType s.id)

/-- Method `sequence.checkMySequence`. -/
def checkMySequence (s : sequence) (st : Store) : Store × Option Error :=
  match docExists s st with
  | .error e => (st, some e)
  | .ok true => (st, none)
  | .ok false =>
    match getMaxID s st with
    | .error e => (st, some e)
    | .ok lastID => if 0 < lastID then writeLastID s st lastID else (st, none)

/-- The struct literal `&sequence{...}` of `newSequence`. The capacity of the
channel is the product `sequenceCacheSize * 2` of two `int`, which wraps. -/
def sequenceLiteral (client : Elastic) : sequence :=
  { clientIndex := client.index
    clientDocType := client.docType
    docType := client.index
    id := client.docType
    cache := []
    cacheCap := wrapInt (client.sequenceCacheSize * 2)
    cacheSize := client.sequenceCacheSize }

/-- Function `newSequence`. The result holds the sequence, the error, whether the
goroutine `go s.loadIDs(s.cacheSize)` was started, and the store. The size
of the channel is the wrapped product, and `make` panics when it is
negative. -/
def newSequence (client : Elastic) (st : Store) :
    Outcome (sequence × Option Error × Bool × Store) :=
  if wrapInt (client.sequenceCacheSize * 2) < 0 then .panic
  else
    let s : sequence := sequenceLiteral client
    match checkSequenceIndex st with
    | (st1, some e) => .ok (s, some e, false, st1)
    | (st1, none) =>
      match checkMySequence s st1 with
      | (st2, some e) => .ok (s, some e, false, st2)
      | (st2, none) => .ok (s, none, true, st2)

/-- Lines 42 to 47 of `GetID`: whether the call starts a refill. -/
def GetID.startsRefill (s : sequence) : Bool :=
  decide ((s.cache.length : Int) ≤ s.cacheSize)

/-- The receive `<-s.cache` of `GetID` and the conversion of the value. -/
def GetID.receive (s : sequence) : Outcome (String × sequence) :=
  match s.cache with
  | [] => .blocked
  | v :: rest => .ok (Itoa v, { s with cache := rest })

/-- Method `sequence.GetID` in the sequential schedule: a refill that the call
starts runs to its end before the value is received. -/
def GetID (s : sequence) (st : Store) : Outcome (String × sequence × Store) :=
  match (if GetID.startsRefill s then loadIDs s st s.cacheSize else .ok (s, st)) with
  | .panic => .panic
  | .blocked => .blocked
  | .ok (s1, st1) =>
    match GetID.receive s1 with
    | .ok (id, s2) => .ok (id, s2, st1)
    | .panic => .panic
    | .blocked => .blocked

/-! ## `elasticsearch.go` -/

/-- Method `Elastic.SetSequenceAutoIncrement`. The result holds the client, the
error returned, whether `newSequence` started its refill goroutine, and the
store. -/
def SetSequenceAutoIncrement (es : Elastic) (st : Store) (cacheSize : Int) :
    Outcome (Elastic × Option Error × Bool × Store) :=
  let es1 := { es with sequenceCacheSize := if cacheSize = 0 then 1 else cacheSize }
  match newSequence es1 st with
  | .ok (s, err, started, st1) => .ok ({ es1 with sequence := some s }, err, started, st1)
  | .panic => .panic
  | .blocked => .blocked

/-- Method `Elastic.StartBulk`. -/
def StartBulk (es : Elastic) (size : Int) : Elastic :=
  { es with bulk := some Bulk, bulkSize := size }

/-- Method `Elastic.execBulk` on the bulk service `b` of the client. -/
def execBulk (es : Elastic) (b : BulkService) (st : Store) : Elastic × Store × Option Error :=
  if es.bulkSize ≤ (b.NumberOfActions : Int) then
    let r := b.Do st
    ({ es with bulk := some r.1 }, r.2.1, r.2.2.2)
  else ({ es with bulk := some b }, st, none)

/-- Method `Elastic.bulkIndex` on the bulk service `b` of the client. -/
def bulkIndex (es : Elastic) (b : BulkService) (st : Store) (doc id : String) :
    Elastic × Store × Option Error :=
  let q := ((NewBulkIndexRequest.Index es.index).Type es.docType).Doc doc
  let q1 := if id ≠ "" then q.Id id else q
  execBulk es (b.Add q1) st

/-- Method `Elastic.BulkIndex`: the documents are added to the bulk service `b`,
and `Do` is called on a new `client.Bulk()`. -/
def BulkIndex (es : Elastic) (st : Store) (docs : List String) :
    Store × Option BulkResponse × Option Error :=
  let b := (Bulk.Index es.index).Type es.docType
  let _b1 := docs.foldl (fun b doc => b.Add (NewBulkIndexRequest.Doc doc)) b
  (Bulk.Do st).2

/-- Method `Elastic.Index` in the sequential schedule of `GetID`. The result holds
the client, the store and Go's `(string, error)`. -/
def Index (es : Elastic) (st : Store) (doc id : String) :
    Outcome (Elastic × Store × Except Error String) :=
  let got : Outcome (String × Elastic × Store) :=
    match es.sequence with
    | some s =>
      if id = "" then
        match GetID s st with
        | .ok (id1, s1, st1) => .ok (id1, { es with sequence := some s1 }, st1)
        | .panic => .panic
        | .blocked => .blocked
      else .ok (id, es, st)
    | none => .ok (id, es, st)
  match got with
  | .panic => .panic
  | .blocked => .blocked
  | .ok (id1, es1, st1) =>
    match es1.bulk with
    | some b =>
      match bulkIndex es1 b st1 doc id1 with
      | (es2, st2, some e) => .ok (es2, st2, .error e)
      | (es2, st2, none) => .ok (es2, st2, .ok "")
    | none =>
      if es1.index = "" ∨ es1.docType = "" then .ok (es1, st1, .error .missingFields)
      else if Op.index ∈ st1.faults then .ok (es1, st1, .error (.store .index))
      else
        let r := st1.indexDoc es1.index es1.docType id1
        .ok (es1, r.1, .ok r.2.Id)

/-! ## The sequential schedule -/

/-- The refill goroutine that `newSequence` started, run to its end. -/
def SetSequenceAutoIncrementSeq (es : Elastic) (st : Store) (cacheSize : Int) :
    Outcome (Elastic × Option Error × Store) :=
  match SetSequenceAutoIncrement es st cacheSize with
  | .panic => .panic
  | .blocked => .blocked
  | .ok (es1, err, false, st1) => .ok (es1, err, st1)
  | .ok (es1, err, true, st1) =>
    match es1.sequence with
    | none => .ok (es1, err, st1)
    | some s =>
      match loadIDs s st1 s.cacheSize with
      | .ok (s1, st2) => .ok ({ es1 with sequence := some s1 }, err, st2)
      | .panic => .panic
      | .blocked => .blocked

/-- What `n` calls of `GetID`, one after the other, have done: the values
returned, oldest first, the number of refills the calls started, and the
state reached. -/
structure Run where
  ids : List String
  refills : Nat
  s : sequence
  st : Store
  deriving DecidableEq, Repr

/-- The first `n` calls of `GetID` on a sequence, one after the other. -/
def GetIDs (s : sequence) (st : Store) : Nat → Outcome Run
  | 0 => .ok ⟨[], 0, s, st⟩
  | n + 1 =>
    match GetIDs s st n with
    | .panic => .panic
    | .blocked => .blocked
    | .ok r =>
      match GetID r.s r.st with
      | .panic => .panic
      | .blocked => .blocked
      | .ok (id, s1, st1) =>
        .ok ⟨r.ids ++ [id], r.refills + (if GetID.startsRefill r.s then 1 else 0), s1, st1⟩

/-- A client as `New` returns it. -/
def New (index docType : String) : Elastic :=
  { index := index, docType := docType, bulk := none, bulkSize := 0,
    sequence := none, sequenceCacheSize := 0 }

/-- A store without documents in which every call succeeds. -/
def emptyStore : Store := { docs := [], indices := [], faults := [], generated := 0 }

/-- The client of `TestSequence`. -/
def testClient : Elastic := New "unit_test" "sequence_test"

/-- A store in which the collection `index/typ` holds documents with the
given identifiers, each at version 1, and nothing else. -/
def storeWith (index typ : String) (ids : List String) : Store :=
  { emptyStore with docs := ids.map (fun id => ⟨index, typ, id, 1⟩) }

/-- The versions `v + 1`, ..., `v + n` as values of the cache. -/
def freshIDs (v n : Nat) : List Int := (List.range' (v + 1) n).map Int.ofNat

/-- The state of the sequential schedule after `n` calls of `GetID` on a
sequence that was constructed as `s0` on a counter document at version `v0`,
with cache size `c`: the cache holds the next `L` versions, the counter
document is `L` ahead, and `c` versions were fetched by the construction and
by every refill. -/
def SeqInv (s0 : sequence) (faults : List Op) (v0 c n : Nat) (r : Run) : Prop :=
  ∃ L : Nat, r.s = { s0 with cache := freshIDs (v0 + n) L } ∧
    r.st.version "sequence" s0.docType s0.id = v0 + n + L ∧
    r.st.faults = faults ∧ c ≤ L ∧ L + 1 ≤ 2 * c ∧ r.refills * c + c = n + L ∧
    r.ids = (List.range' (v0 + 1) n).map (fun v => Itoa (Int.ofNat v))

/-! ## The concurrent schedule -/

/-- A process that uses one sequence from several goroutines.

* `pending`: refill goroutines that were started and have not yet sent
  their bulk request;
* `sending`: for every `loadIDs` loop that is running, the values it has
  still to send to the channel;
* `waiting`: callers of `GetID` that are before their receive;
* `issued`: the values `GetID` has returned, oldest first. -/
structure World where
  st : Store
  s : sequence
  pending : Nat
  sending : List (List Int)
  waiting : Nat
  issued : List String

/-- The process right after `newSequence`. -/
def World.init (s : sequence) (st : Store) (started : Bool) : World :=
  { st := st, s := s, pending := if started then 1 else 0, sending := [],
    waiting := 0, issued := [] }

/-- The version of the counter document of the sequence of `w`. -/
def World.counter (w : World) : Nat := w.st.version "sequence" w.s.docType w.s.id

/-- One atomic step of the process.

* `call`: a caller of `GetID` runs lines 42 to 47;
* `receive`: a caller receives a value from the channel and returns it;
* `refill`: a refill goroutine gets the response of its bulk request; the
  transport may deliver any part of the items in any order;
* `push`: a `loadIDs` loop sends its next value to the channel;
* `external`: other clients use the store; they can only index the counter
  document, so its version does not decrease. -/
inductive Step : World → World → Prop where
  | call (w : World) :
    Step w { w with
      pending := w.pending + (if GetID.startsRefill w.s then 1 else 0)
      waiting := w.waiting + 1 }
  | receive (w : World) (id : String) (s1 : sequence) (hw : 0 < w.waiting)
    (h : GetID.receive w.s = .ok (id, s1)) :
    Step w { w with s := s1, waiting := w.waiting - 1, issued := w.issued ++ [id] }
  | refill (w : World) (st1 : Store) (res : BulkResponse) (delivered : List BulkResponseItem)
    (items : List BulkResponseItem) (hp : 0 < w.pending)
    (h : getIDs w.s w.st w.s.cacheSize = (st1, some res, none))
    (hd : List.Subperm delivered res.Items)
    (hs : Succeeded (some ⟨delivered⟩) = some items) :
    Step w { w with
      st := st1, pending := w.pending - 1
      sending := w.sending ++ [items.map (fun r => (r.Version : Int))] }
  | push (w : World) (pre post : List (List Int)) (v : Int) (vs : List Int) (s1 : sequence)
    (hs : w.sending = pre ++ (v :: vs) :: post) (h : send w.s v = .ok s1) :
    Step w { w with s := s1, sending := pre ++ vs :: post }
  | external (w : World) (st1 : Store)
    (h : w.counter ≤ st1.version "sequence" w.s.docType w.s.id) :
    Step w { w with st := st1 }

/-- The worlds the process can reach from `w0`. -/
def Reachable (w0 w : World) : Prop := Relation.ReflTransGen Step w0 w

/-- The values the process holds: those it has issued, those in the cache
and those that are still to be sent. -/
def World.held (w : World) (vs : List Int) : List Int := vs ++ w.s.cache ++ w.sending.flatten

/-- The invariant of the process: the sequence has a name, the counter
document is at or above `floor`, and the values held are pairwise distinct
versions of the counter document above `floor`; `issued` is their decimal
form. -/
def Inv (floor : Nat) (w : World) : Prop :=
  w.s.id ≠ "" ∧ floor ≤ w.counter ∧
  ∃ vs : List Int, w.issued = vs.map Itoa ∧ (w.held vs).Nodup ∧
    ∀ x ∈ w.held vs, (floor : Int) < x ∧ x ≤ (w.counter : Int)

/-! ## The product of `newSequence` -/

theorem wrapInt_of_range (x : Int) (h1 : 0 ≤ x) (h2 : x ≤ maxInt) : wrapInt x = x := by
  unfold maxInt at h2
  unfold wrapInt
  omega

/-- A capacity that is not below the cache size is the exact product. -/
theorem wrapInt_double (c : Int) (h1 : 1 ≤ c) (h2 : c ≤ wrapInt (c * 2)) :
    wrapInt (c * 2) = c * 2 := by
  unfold wrapInt at h2 ⊢
  omega

/-- For a positive `int` the size of the channel is negative exactly when
the product overflows. -/
theorem wrapInt_double_nonneg (c : Int) (h1 : 1 ≤ c) (h2 : c ≤ maxInt)
    (h3 : 0 ≤ wrapInt (c * 2)) : c * 2 ≤ maxInt := by
  unfold maxInt at h2 ⊢
  unfold wrapInt at h3
  omega

/-! ## Decimal digits -/

theorem digitChar_toNat (d : Nat) (h : d < 10) : (digitChar d).toNat = 48 + d := by
  interval_cases d <;> rfl

theorem formatBits_append (n : Nat) :
    ∀ fuel acc, n < fuel → formatBits fuel n acc = decimal n ++ acc := by
  induction n using Nat.strong_induction_on with
  | _ n ih =>
    intro fuel acc hf
    obtain ⟨f, rfl⟩ : ∃ f, fuel = f + 1 := ⟨fuel - 1, by omega⟩
    by_cases h10 : n < 10
    · simp [decimal, formatBits, h10]
    · have hdiv : n / 10 < n := by omega
      have h1 := ih (n / 10) hdiv f (digitChar (n % 10) :: acc) (by omega)
      have h2 := ih (n / 10) hdiv n [digitChar (n % 10)] hdiv
      simp only [decimal, formatBits, h10, if_false] at h1 h2 ⊢
      rw [h1, h2]
      simp

theorem decimal_lt_ten (n : Nat) (h : n < 10) : decimal n = [digitChar n] := by
  simp [decimal, formatBits, h]

theorem decimal_ge_ten (n : Nat) (h : 10 ≤ n) :
    decimal n = decimal (n / 10) ++ [digitChar (n % 10)] := by
  have h10 : ¬ n < 10 := by omega
  have := formatBits_append (n / 10) n [digitChar (n % 10)] (by omega)
  simpa [decimal, formatBits, h10] using this

/-! ## The order of the search -/

theorem lexLess_irrefl (a : List Char) : lexLess a a = false := by
  induction a with
  | nil => rfl
  | cons x xs ih => simp [lexLess, ih]

theorem lexLess_asymm : ∀ a b : List Char, lexLess a b = true → lexLess b a = false
  | _, [], h => by simp [lexLess] at h
  | [], _ :: _, _ => by simp [lexLess]
  | x :: xs, y :: ys, h => by
    simp only [lexLess, Bool.or_eq_true, Bool.and_eq_true, decide_eq_true_eq, beq_iff_eq] at h
    rcases h with h | ⟨rfl, h⟩
    · have hne : y ≠ x := by rintro rfl; omega
      simp [lexLess, hne]; omega
    · simp [lexLess, lexLess_asymm xs ys h]

theorem lexLess_snoc (a b : Char) :
    ∀ xs ys : List Char, xs.length = ys.length → lexLess xs ys = true →
      lexLess (xs ++ [a]) (ys ++ [b]) = true
  | _, [], _, h => by simp [lexLess] at h
  | [], _ :: _, hl, _ => by simp at hl
  | x :: xs, y :: ys, hl, h => by
    simp only [lexLess, Bool.or_eq_true, Bool.and_eq_true, decide_eq_true_eq, beq_iff_eq] at h
    simp only [List.cons_append, lexLess, Bool.or_eq_true, Bool.and_eq_true, decide_eq_true_eq,
      beq_iff_eq]
    rcases h with h | ⟨rfl, h⟩
    · exact Or.inl h
    · exact Or.inr ⟨rfl, lexLess_snoc a b xs ys (by simpa using hl) h⟩

theorem lexLess_last (a b : Char) (h : a.toNat < b.toNat) (p : List Char) :
    lexLess (p ++ [a]) (p ++ [b]) = true := by
  induction p with
  | nil => simp [lexLess, h]
  | cons x xs ih => simp [lexLess, ih]

theorem decimal_length_pos (n : Nat) : 0 < (decimal n).length := by
  by_cases h : n < 10
  · simp [decimal_lt_ten n h]
  · simp [decimal_ge_ten n (by omega)]

theorem decimal_below (m : Nat) : ∀ n, n < m → Below (decimal n) (decimal m) := by
  induction m using Nat.strong_induction_on with
  | _ m ih =>
    intro n hnm
    by_cases hm : m < 10
    · have hn : n < 10 := by omega
      right
      rw [decimal_lt_ten n hn, decimal_lt_ten m hm]
      simp [lexLess, digitChar_toNat n hn, digitChar_toNat m hm, hnm]
    · rw [decimal_ge_ten m (by omega)]
      by_cases hn : n < 10
      · left
        rw [decimal_lt_ten n hn]
        have := decimal_length_pos (m / 10)
        simp; omega
      · rw [decimal_ge_ten n (by omega)]
        have hle : n / 10 ≤ m / 10 := Nat.div_le_div_right (by omega)
        rcases Nat.lt_or_eq_of_le hle with hlt | heq
        · rcases ih (m / 10) (by omega) (n / 10) hlt with h | ⟨h1, h2⟩
          · left; simp; omega
          · right
            exact ⟨by simp [h1], lexLess_snoc _ _ _ _ h1 h2⟩
        · right
          rw [heq]
          refine ⟨by simp, lexLess_last _ _ ?_ _⟩
          rw [digitChar_toNat _ (Nat.mod_lt _ (by decide)),
            digitChar_toNat _ (Nat.mod_lt _ (by decide))]
          omega

theorem Below_irrefl (a : List Char) : ¬ Below a a := by
  rintro (h | ⟨_, h⟩)
  · omega
  · simp [lexLess_irrefl] at h

theorem Below_asymm (a b : List Char) (h : Below a b) : ¬ Below b a := by
  rcases h with h | ⟨h1, h2⟩
  · rintro (h' | ⟨h', _⟩) <;> omega
  · rintro (h' | ⟨_, h'⟩)
    · omega
    · simp [lexLess_asymm a b h2] at h'

theorem decimal_injective (n m : Nat) (h : decimal n = decimal m) : n = m := by
  rcases Nat.lt_trichotomy n m with hlt | heq | hgt
  · exact absurd (h ▸ decimal_below m n hlt) (Below_irrefl _)
  · exact heq
  · exact absurd (h ▸ decimal_below n m hgt) (Below_irrefl _)

theorem uidLess_iff (a b : String) : uidLess a b = true ↔ Below a.data b.data := by
  cases a with
  | mk a =>
    cases b with
    | mk b =>
      simp only [uidLess, Below, String.length, Bool.or_eq_true, Bool.and_eq_true,
        decide_eq_true_eq, beq_iff_eq]

theorem Itoa_natCast (n : Nat) : Itoa (n : Int) = String.mk (decimal n) := by
  unfold Itoa
  rw [if_neg (by omega), Int.natAbs_ofNat]

theorem Itoa_natCast_injective (n m : Nat) (h : Itoa (n : Int) = Itoa (m : Int)) : n = m := by
  rw [Itoa_natCast, Itoa_natCast] at h
  exact decimal_injective n m (congrArg String.data h)

/-! ## `Atoi` reads what `Itoa` writes -/

theorem parseUintLoop_snoc (c : Char) (m : Nat) :
    ∀ (xs : List Char) (acc : Nat), parseUintLoop xs acc = .ok m →
      parseUintLoop (xs ++ [c]) acc = parseUintLoop [c] m
  | [], acc, h => by
    simp only [parseUintLoop, Except.ok.injEq] at h
    simp [h]
  | x :: xs, acc, h => by
    simp only [parseUintLoop, List.cons_append] at h ⊢
    split at h
    · split at h
      · exact absurd h (by simp)
      · split at h
        · exact absurd h (by simp)
        · rename_i h1 h2 h3
          simp only [h1, h2, h3, if_true, if_false, and_self]
          exact parseUintLoop_snoc c m xs _ h
    · exact absurd h (by simp)

theorem decimal_digits (n : Nat) : ∀ c ∈ decimal n, 48 ≤ c.toNat ∧ c.toNat ≤ 57 := by
  induction n using Nat.strong_induction_on with
  | _ n ih =>
    intro c hc
    by_cases h : n < 10
    · rw [decimal_lt_ten n h] at hc
      simp only [List.mem_singleton] at hc
      rw [hc, digitChar_toNat n h]; omega
    · rw [decimal_ge_ten n (by omega)] at hc
      simp only [List.mem_append, List.mem_singleton] at hc
      rcases hc with hc | hc
      · exact ih (n / 10) (by omega) c hc
      · rw [hc, digitChar_toNat _ (Nat.mod_lt _ (by decide))]; omega

theorem parseUintLoop_decimal (n : Nat) (h : n ≤ maxUint64) :
    parseUintLoop (decimal n) 0 = .ok n := by
  induction n using Nat.strong_induction_on with
  | _ n ih =>
    unfold maxUint64 at h
    by_cases h10 : n < 10
    · rw [decimal_lt_ten n h10]
      simp only [parseUintLoop, digitChar_toNat n h10, maxUint64]
      rw [if_pos (by omega), if_neg (by omega), if_neg (by omega)]
      simp
    · rw [decimal_ge_ten n (by omega)]
      have h1 := ih (n / 10) (by omega) (by unfold maxUint64; omega)
      rw [parseUintLoop_snoc _ _ _ _ h1]
      simp only [parseUintLoop, digitChar_toNat _ (Nat.mod_lt n (by decide : 0 < 10)), maxUint64]
      rw [if_pos (by omega), if_neg (by omega), if_neg (by omega)]
      congr 1
      omega

theorem Atoi_Itoa (n : Nat) (h : (n : Int) ≤ maxInt) : Atoi (Itoa (n : Int)) = .ok (n : Int) := by
  unfold maxInt at h
  rw [Itoa_natCast]
  unfold Atoi ParseInt
  have hpos := decimal_length_pos n
  have hdig := decimal_digits n
  have hparse := parseUintLoop_decimal n (by unfold maxUint64; omega)
  cases hd : decimal n with
  | nil => simp [hd] at hpos
  | cons c cs =>
    have hc := hdig c (by simp [hd])
    have hminus : c ≠ '-' := by
      rintro rfl
      exact absurd hc.1 (by decide)
    have hplus : c ≠ '+' := by
      rintro rfl
      exact absurd hc.1 (by decide)
    rw [hd] at hparse
    simp only [hminus, hplus, or_self, if_false, decide_False, ParseUint, hparse, maxInt]
    simp
    omega

/-! ## The top hit -/

theorem topHit_mem : ∀ (l : List String) (y : String), topHit l = some y → y ∈ l
  | [], _, h => by simp [topHit] at h
  | x :: xs, y, h => by
    simp only [topHit] at h
    cases hx : topHit xs with
    | none =>
      rw [hx] at h
      simp only [Option.some.injEq] at h
      simp [h]
    | some z =>
      rw [hx] at h
      simp only at h
      split at h
      · simp only [Option.some.injEq] at h
        simp [h]
      · simp only [Option.some.injEq] at h
        exact List.mem_cons_of_mem _ (h ▸ topHit_mem xs z hx)

theorem topHit_eq_of_max (t : String) :
    ∀ l : List String, t ∈ l →
      (∀ id ∈ l, id = t ∨ (uidLess id t = true ∧ uidLess t id = false)) →
      topHit l = some t
  | [], ht, _ => by simp at ht
  | x :: xs, ht, h => by
    simp only [topHit]
    by_cases hxs : t ∈ xs
    · rw [topHit_eq_of_max t xs hxs (fun id hid => h id (List.mem_cons_of_mem _ hid))]
      rcases h x (List.mem_cons_self _ _) with rfl | ⟨_, h2⟩
      · simp
      · simp [h2]
    · have hx : x = t := by
        rcases List.mem_cons.mp ht with h1 | h1
        · exact h1.symm
        · exact absurd h1 hxs
      subst hx
      cases hy : topHit xs with
      | none => rfl
      | some y =>
        have hy1 := topHit_mem xs y hy
        rcases h y (List.mem_cons_of_mem _ hy1) with rfl | ⟨h1, _⟩
        · exact absurd hy1 hxs
        · simp [h1]

theorem topHit_decimal (M : Nat) (l : List String) (hM : Itoa (M : Int) ∈ l)
    (h : ∀ id ∈ l, (∃ n : Nat, n ≤ M ∧ id = Itoa (n : Int)) ∨
      id.length < (Itoa (M : Int)).length) :
    topHit l = some (Itoa (M : Int)) := by
  apply topHit_eq_of_max _ l hM
  intro id hid
  rcases h id hid with ⟨n, hn, rfl⟩ | hlen
  · rcases Nat.lt_or_eq_of_le hn with hlt | heq
    · right
      have hb : Below (Itoa (n : Int)).data (Itoa (M : Int)).data := by
        rw [Itoa_natCast, Itoa_natCast]
        exact decimal_below M n hlt
      refine ⟨(uidLess_iff _ _).mpr hb, ?_⟩
      cases hu : uidLess (Itoa (M : Int)) (Itoa (n : Int)) with
      | false => rfl
      | true => exact absurd ((uidLess_iff _ _).mp hu) (Below_asymm _ _ hb)
    · left; rw [heq]
  · right
    have hb : Below id.data (Itoa (M : Int)).data := by
      left
      exact hlen
    refine ⟨(uidLess_iff _ _).mpr hb, ?_⟩
    cases hu : uidLess (Itoa (M : Int)) id with
    | false => rfl
    | true => exact absurd ((uidLess_iff _ _).mp hu) (Below_asymm _ _ hb)

/-! ## The counter document -/

theorem versionOf_putDoc (index typ id : String) :
    ∀ ds : List Document,
      (putDoc index typ id ds).2 = versionOf index typ id ds + 1 ∧
      versionOf index typ id (putDoc index typ id ds).1 = versionOf index typ id ds + 1
  | [] => by simp [putDoc, versionOf, Document.is]
  | d :: ds => by
    by_cases hd : d.is index typ id = true
    · simp only [putDoc, versionOf, hd, if_true, true_and]
      have : Document.is { d with version := d.version + 1 } index typ id = true := by
        simpa [Document.is] using hd
      simp [this]
    · have ih := versionOf_putDoc index typ id ds
      simp only [putDoc, versionOf, hd, if_false, Bool.false_eq_true]
      exact ih

theorem versionOf_of_not_hasDoc (index typ id : String) :
    ∀ ds : List Document, (ds.any (fun d => d.is index typ id)) = false →
      versionOf index typ id ds = 0
  | [], _ => rfl
  | d :: ds, h => by
    simp only [List.any_cons, Bool.or_eq_false_iff] at h
    simp only [versionOf, h.1, Bool.false_eq_true, if_false]
    exact versionOf_of_not_hasDoc index typ id ds h.2

theorem execRequests_counter (index typ id : String) (hid : id ≠ "") :
    ∀ (n : Nat) (st : Store),
      (execRequests index typ (List.replicate n (NewBulkIndexRequest.Id id)) st).1.version
          index typ id = st.version index typ id + n ∧
      (execRequests index typ (List.replicate n (NewBulkIndexRequest.Id id)) st).2.map
          (fun r => r.Version) = List.range' (st.version index typ id + 1) n ∧
      (∀ r ∈ (execRequests index typ (List.replicate n (NewBulkIndexRequest.Id id)) st).2,
          200 ≤ r.Status ∧ r.Status ≤ 299) ∧
      (execRequests index typ (List.replicate n (NewBulkIndexRequest.Id id)) st).1.faults
          = st.faults
  | 0, st => by simp [execRequests]
  | n + 1, st => by
    have hput := versionOf_putDoc index typ id st.docs
    have ih := execRequests_counter index typ id hid n
      (st.indexDoc index typ id).1
    have hv : (st.indexDoc index typ id).1.version index typ id
        = st.version index typ id + 1 := by
      simp [Store.indexDoc, hid, Store.version, hput.2]
    have hf : (st.indexDoc index typ id).1.faults = st.faults := by
      simp [Store.indexDoc, hid]
    have hitem : (st.indexDoc index typ id).2.Version = st.version index typ id + 1 ∧
        200 ≤ (st.indexDoc index typ id).2.Status ∧
        (st.indexDoc index typ id).2.Status ≤ 299 := by
      simp only [Store.indexDoc, hid, if_false, Store.version, hput.1, true_and]
      split <;> decide
    simp only [List.replicate_succ, execRequests, NewBulkIndexRequest, BulkIndexRequest.Id,
      if_true, List.map_cons, List.range'_succ, List.mem_cons, forall_eq_or_imp]
    simp only [NewBulkIndexRequest, BulkIndexRequest.Id] at ih
    rw [hv] at ih
    refine ⟨?_, ?_, ⟨⟨hitem.2.1, hitem.2.2⟩, ih.2.2.1⟩, ?_⟩
    · rw [ih.1]; omega
    · rw [ih.2.1, hitem.1]
    · rw [ih.2.2.2, hf]

/-! ## `getIDs` and `loadIDs` -/

theorem getIDsLoop_requests (s : sequence) :
    ∀ (n : Nat) (b : BulkService),
      getIDsLoop s n b =
        { b with requests := b.requests ++ List.replicate n (NewBulkIndexRequest.Id s.id) }
  | 0, b => by simp [getIDsLoop]
  | n + 1, b => by
    rw [getIDsLoop, getIDsLoop_requests s n]
    simp [BulkService.Add, List.replicate_succ]

theorem getIDs_eq (s : sequence) (st : Store) (size : Int) :
    getIDs s st size =
      if size.toNat = 0 then (st, none, some .noBulkActions)
      else if Op.bulk ∈ st.faults then (st, none, some (.store .bulk))
      else
        ((execRequests "sequence" s.docType
            (List.replicate size.toNat (NewBulkIndexRequest.Id s.id)) st).1,
         some ⟨(execRequests "sequence" s.docType
            (List.replicate size.toNat (NewBulkIndexRequest.Id s.id)) st).2⟩, none) := by
  simp only [getIDs, getIDsLoop_requests, BulkService.Do, BulkService.NumberOfActions, Bulk,
    BulkService.Index, BulkService.Type, List.nil_append, List.length_replicate]
  split
  · rfl
  · split <;> rfl

theorem getIDs_some (s : sequence) (st st1 : Store) (size : Int) (res : BulkResponse)
    (hid : s.id ≠ "") (h : getIDs s st size = (st1, some res, none)) :
    st1.version "sequence" s.docType s.id = st.version "sequence" s.docType s.id + size.toNat ∧
    res.Items.map (fun r => r.Version)
      = List.range' (st.version "sequence" s.docType s.id + 1) size.toNat ∧
    (∀ r ∈ res.Items, 200 ≤ r.Status ∧ r.Status ≤ 299) ∧
    st1.faults = st.faults := by
  rw [getIDs_eq] at h
  split at h
  · simp at h
  · split at h
    · simp at h
    · simp only [Prod.mk.injEq, Option.some.injEq, and_true] at h
      obtain ⟨h1, h2⟩ := h
      subst h1
      subst h2
      exact execRequests_counter "sequence" s.docType s.id hid size.toNat st

theorem getIDs_ok (s : sequence) (st : Store) (size : Int)
    (hf : Op.bulk ∉ st.faults) (hn : 0 < size) :
    ∃ st1 res, getIDs s st size = (st1, some res, none) := by
  rw [getIDs_eq, if_neg (by omega), if_neg hf]
  exact ⟨_, _, rfl⟩

theorem sendAll_ok :
    ∀ (items : List BulkResponseItem) (s : sequence),
      (s.cache.length : Int) + items.length ≤ s.cacheCap →
      sendAll s items =
        .ok { s with cache := s.cache ++ items.map (fun r => (r.Version : Int)) }
  | [], s, _ => by simp [sendAll]
  | r :: rs, s, h => by
    simp only [List.length_cons, Nat.cast_add, Nat.cast_one] at h
    have h1 : (s.cache.length : Int) < s.cacheCap := by omega
    simp only [sendAll, send, h1, if_true]
    rw [sendAll_ok rs]
    · simp
    · simp only [List.length_append, List.length_singleton, Nat.cast_add, Nat.cast_one]
      omega

theorem sendAll_inv :
    ∀ (items : List BulkResponseItem) (s s1 : sequence), sendAll s items = .ok s1 →
      items ≠ [] → (s.cache.length : Int) + items.length ≤ s.cacheCap
  | [], _, _, _, h => absurd rfl h
  | r :: rs, s, s1, h, _ => by
    by_cases hlt : (s.cache.length : Int) < s.cacheCap
    · simp only [sendAll, send, hlt, if_true] at h
      by_cases hrs : rs = []
      · subst hrs
        simp only [List.length_singleton, Nat.cast_one]
        omega
      · have ih := sendAll_inv rs _ s1 h hrs
        simp only [List.length_append, List.length_singleton, Nat.cast_add, Nat.cast_one] at ih
        simp only [List.length_cons, Nat.cast_add, Nat.cast_one]
        omega
    · simp [sendAll, send, hlt] at h

theorem Succeeded_all (items : List BulkResponseItem)
    (h : ∀ r ∈ items, 200 ≤ r.Status ∧ r.Status ≤ 299) :
    Succeeded (some ⟨items⟩) = some items := by
  simp only [Succeeded, Option.some.injEq, List.filter_eq_self, decide_eq_true_eq]
  exact h

theorem loadIDs_ok (s : sequence) (st : Store) (size : Int)
    (hid : s.id ≠ "") (hf : Op.bulk ∉ st.faults) (hn : 0 < size)
    (hcap : (s.cache.length : Int) + size ≤ s.cacheCap) :
    ∃ st1, loadIDs s st size =
        .ok ({ s with
          cache := s.cache ++ freshIDs (st.version "sequence" s.docType s.id) size.toNat },
          st1) ∧
      st1.version "sequence" s.docType s.id
        = st.version "sequence" s.docType s.id + size.toNat ∧
      st1.faults = st.faults := by
  obtain ⟨st1, res, hres⟩ := getIDs_ok s st size hf hn
  obtain ⟨hv, hitems, hstatus, hfaults⟩ := getIDs_some s st st1 size res hid hres
  refine ⟨st1, ?_, hv, hfaults⟩
  have hlen : res.Items.length = size.toNat := by
    have := congrArg List.length hitems
    simpa using this
  unfold loadIDs
  rw [hres]
  simp only
  rw [Succeeded_all res.Items hstatus]
  simp only
  rw [sendAll_ok res.Items s (by rw [hlen]; omega)]
  simp only
  rw [freshIDs, ← hitems, List.map_map]
  rfl

/-! ## The invariant of the concurrent schedule -/

theorem refill_values (v n : Nat) (res : BulkResponse)
    (delivered items : List BulkResponseItem)
    (hitems : res.Items.map (fun r => r.Version) = List.range' (v + 1) n)
    (hd : List.Subperm delivered res.Items)
    (hs : Succeeded (some ⟨delivered⟩) = some items) :
    (items.map (fun r => (r.Version : Int))).Nodup ∧
    ∀ x ∈ items.map (fun r => (r.Version : Int)), (v : Int) < x ∧ x ≤ ((v + n : Nat) : Int) := by
  simp only [Succeeded, Option.some.injEq] at hs
  have hsub : List.Subperm items res.Items := by
    rw [← hs]
    exact (List.filter_sublist _).subperm.trans hd
  obtain ⟨l, hperm, hsl⟩ := hsub
  have hfresh : res.Items.map (fun r => (r.Version : Int)) = freshIDs v n := by
    rw [freshIDs, ← hitems, List.map_map]
    rfl
  have hnd : (freshIDs v n).Nodup :=
    List.Nodup.map (fun a b h => by simpa using h) (List.nodup_range' _ _)
  have hl : (l.map (fun r => (r.Version : Int))).Nodup :=
    List.Nodup.sublist (hfresh ▸ hsl.map _) hnd
  refine ⟨(List.Perm.nodup_iff (hperm.map _)).mp hl, ?_⟩
  intro x hx
  have hx1 : x ∈ l.map (fun r => (r.Version : Int)) := ((hperm.map _).mem_iff).mpr hx
  have hx2 : x ∈ freshIDs v n := hfresh ▸ (hsl.map _).subset hx1
  simp only [freshIDs, List.mem_map, List.mem_range'_1] at hx2
  obtain ⟨a, ha, rfl⟩ := hx2
  simp only [Int.ofNat_eq_coe, Nat.cast_lt, Nat.cast_le]
  omega

theorem Inv_step (floor : Nat) (w w1 : World) (hinv : Inv floor w) (hstep : Step w w1) :
    Inv floor w1 := by
  obtain ⟨hid, hfloor, vs, hissued, hnd, hbound⟩ := hinv
  cases hstep with
  | call => exact ⟨hid, hfloor, vs, hissued, hnd, hbound⟩
  | receive id s1 hw h =>
    simp only [GetID.receive] at h
    cases hc : w.s.cache with
    | nil => simp [hc] at h
    | cons v rest =>
      rw [hc] at h
      simp only [Outcome.ok.injEq, Prod.mk.injEq] at h
      obtain ⟨rfl, rfl⟩ := h
      have hheld : ∀ l : List Int, l ++ [v] ++ rest ++ w.sending.flatten = w.held l := by
        intro l
        simp [World.held, hc]
      refine ⟨hid, hfloor, vs ++ [v], by simp [hissued], ?_, ?_⟩
      · simpa only [World.held, hheld] using hnd
      · simpa only [World.held, hheld] using hbound
  | refill st1 res delivered items hp h hd hs =>
    obtain ⟨hv, hitems, -, -⟩ := getIDs_some w.s w.st st1 _ res hid h
    obtain ⟨hnew, hrange⟩ := refill_values _ _ res delivered items hitems hd hs
    have hcounter : st1.version "sequence" w.s.docType w.s.id
        = w.counter + w.s.cacheSize.toNat := hv
    refine ⟨hid, by simp only [World.counter, hcounter]; omega, vs, hissued, ?_, ?_⟩
    · simp only [World.held, List.flatten_append, List.flatten_cons, List.flatten_nil, List.append_nil,
        ← List.append_assoc]
      refine List.Nodup.append hnd hnew ?_
      intro x hx1 hx2
      have h1 := (hbound x hx1).2
      have h2 := (hrange x hx2).1
      simp only [World.counter] at h1
      omega
    · intro x hx
      simp only [World.held, List.flatten_append, List.flatten_cons, List.flatten_nil, List.append_nil,
        ← List.append_assoc, World.counter, hcounter] at hx ⊢
      rcases List.mem_append.mp hx with hx | hx
      · have := hbound x hx
        simp only [World.counter] at this
        omega
      · have := hrange x hx
        simp only [World.counter] at hfloor
        omega
  | push pre post v vs1 s1 hs h =>
    simp only [send] at h
    split at h
    · simp only [Outcome.ok.injEq] at h
      subst h
      have hperm : List.Perm (w.held vs)
          (vs ++ (w.s.cache ++ [v]) ++ (pre ++ vs1 :: post).flatten) := by
        rw [List.perm_iff_count]
        intro a
        simp only [World.held, hs, List.count_append, List.count_flatten, List.map_append,
          List.map_cons, List.sum_append, List.sum_cons, List.count_cons, List.count_nil]
        omega
      refine ⟨hid, hfloor, vs, hissued, ?_, ?_⟩
      · exact (List.Perm.nodup_iff hperm).mp hnd
      · intro x hx
        exact hbound x (hperm.mem_iff.mpr hx)
    · simp at h
  | external st1 h =>
    refine ⟨hid, le_trans hfloor h, vs, hissued, hnd, ?_⟩
    intro x hx
    have h1 := hbound x hx
    have h2 : (w.counter : Int) ≤ (st1.version "sequence" w.s.docType w.s.id : Int) := by
      exact_mod_cast h
    exact ⟨h1.1, le_trans h1.2 h2⟩

theorem Inv_reachable (floor : Nat) (w0 w : World) (h0 : Inv floor w0) (h : Reachable w0 w) :
    Inv floor w := by
  induction h with
  | refl => exact h0
  | tail _ hstep ih => exact Inv_step floor _ _ ih hstep

/-! ## Bootstrap -/

theorem checkSequenceIndex_ok (st : Store) (hf : Op.indexExists ∉ st.faults) :
    (checkSequenceIndex st).2 = none ∧ (checkSequenceIndex st).1.docs = st.docs ∧
      (checkSequenceIndex st).1.faults = st.faults := by
  unfold checkSequenceIndex IndexExists
  rw [if_neg hf]
  by_cases hi : "sequence" ∈ st.indices
  · simp [hi]
  · simp only [hi, decide_False]
    unfold CreateIndex
    split <;> simp

theorem newSequence_eq (client : Elastic) (st : Store)
    (hc : 0 ≤ wrapInt (client.sequenceCacheSize * 2)) (hf : Op.indexExists ∉ st.faults) :
    newSequence client st =
      match checkMySequence (sequenceLiteral client) (checkSequenceIndex st).1 with
      | (st2, some e) => .ok (sequenceLiteral client, some e, false, st2)
      | (st2, none) => .ok (sequenceLiteral client, none, true, st2) := by
  have h := checkSequenceIndex_ok st hf
  unfold newSequence
  rw [if_neg (by omega)]
  rcases hcs : checkSequenceIndex st with ⟨st1, e⟩
  rw [hcs] at h
  simp only at h
  rw [h.1]

theorem newSequence_started (client : Elastic) (st st1 : Store) (s : sequence)
    (err : Option Error) (h : newSequence client st = .ok (s, err, true, st1)) :
    err = none ∧ s = sequenceLiteral client ∧ s.id ≠ "" ∧
      0 ≤ wrapInt (client.sequenceCacheSize * 2) := by
  unfold newSequence at h
  split at h
  · exact absurd h (by simp)
  · rename_i hneg
    simp only at h
    split at h
    · simp at h
    · split at h
      · simp at h
      · rename_i st2 hcheck
        simp only [Outcome.ok.injEq, Prod.mk.injEq, true_and] at h
        refine ⟨h.2.1.symm, h.1.symm, ?_, by omega⟩
        rw [← h.1]
        intro hid
        simp [checkMySequence, docExists, hid] at hcheck

theorem checkMySequence_exists (s : sequence) (st : Store) (h1 : s.docType ≠ "")
    (h2 : s.id ≠ "") (hf : Op.docExists ∉ st.faults)
    (hdoc : st.hasDoc "sequence" s.docType s.id = true) :
    checkMySequence s st = (st, none) := by
  simp [checkMySequence, docExists, h1, h2, hf, hdoc]

theorem getMaxID_eq (s : sequence) (st : Store) (hf : Op.search ∉ st.faults) :
    getMaxID s st =
      match topHit (st.ids s.clientIndex s.clientDocType) with
      | none => .ok 0
      | some id =>
        match Atoi id with
        | .error e => .error (.num e)
        | .ok v => .ok v := by
  simp only [getMaxID, Search, hf, if_false]
  cases topHit (st.ids s.clientIndex s.clientDocType) with
  | none => rfl
  | some id =>
    simp only [Option.toList, getMaxIDLoop]

/-! ## The sequential schedule -/

theorem freshIDs_append (v a b : Nat) :
    freshIDs v a ++ freshIDs (v + a) b = freshIDs v (a + b) := by
  simp only [freshIDs, ← List.map_append]
  congr 1
  rw [show v + a + 1 = v + 1 + a by omega, List.range'_append_1, Nat.add_comm b a]

theorem freshIDs_succ (v n : Nat) :
    freshIDs v (n + 1) = Int.ofNat (v + 1) :: freshIDs (v + 1) n := by
  simp [freshIDs, List.range'_succ]

theorem freshIDs_length (v n : Nat) : (freshIDs v n).length = n := by
  simp [freshIDs]

theorem GetID_step (s0 : sequence) (faults : List Op) (v0 c n : Nat) (r : Run)
    (hid : s0.id ≠ "") (hc : 1 ≤ c) (hsize : s0.cacheSize = c) (hcap : s0.cacheCap = 2 * c)
    (hf : Op.bulk ∉ faults) (hinv : SeqInv s0 faults v0 c n r) :
    ∃ s1 st1, GetID r.s r.st = .ok (Itoa (Int.ofNat (v0 + n + 1)), s1, st1) ∧
      SeqInv s0 faults v0 c (n + 1)
        ⟨r.ids ++ [Itoa (Int.ofNat (v0 + n + 1))],
          r.refills + (if GetID.startsRefill r.s then 1 else 0), s1, st1⟩ := by
  obtain ⟨L, hs, hv, hfaults, hcL, hL2, hcount, hids⟩ := hinv
  have hids1 : r.ids ++ [Itoa (Int.ofNat (v0 + n + 1))]
      = (List.range' (v0 + 1) (n + 1)).map (fun v => Itoa (Int.ofNat v)) := by
    rw [hids, List.range'_concat, List.map_append]
    simp [Nat.add_right_comm]
  by_cases hstart : L ≤ c
  · -- the call starts a refill
    have hLc : L = c := by omega
    have hsr : GetID.startsRefill r.s = true := by
      simp only [GetID.startsRefill, hs, freshIDs_length, hsize, decide_eq_true_eq]
      exact_mod_cast hstart
    have hfr : Op.bulk ∉ r.st.faults := by rw [hfaults]; exact hf
    obtain ⟨st1, hload, hv1, hf1⟩ := loadIDs_ok r.s r.st r.s.cacheSize (by rw [hs]; exact hid)
      hfr (by rw [hs]; simp only [hsize]; exact_mod_cast hc)
      (by rw [hs]; simp only [freshIDs_length, hsize, hcap]; omega)
    have hsz : r.s.cacheSize.toNat = c := by rw [hs]; simp [hsize]
    rw [hsz] at hload hv1
    have hkey : r.st.version "sequence" r.s.docType r.s.id = v0 + n + L := by
      rw [hs]; exact hv
    rw [hkey] at hload
    have hcache : r.s.cache ++ freshIDs (v0 + n + L) c
        = Int.ofNat (v0 + n + 1) :: freshIDs (v0 + n + 1) (L + c - 1) := by
      rw [hs]
      simp only
      rw [freshIDs_append, show L + c = (L + c - 1) + 1 by omega, freshIDs_succ]
      simp
    refine ⟨{ s0 with cache := freshIDs (v0 + n + 1) (L + c - 1) }, st1, ?_, ?_⟩
    · simp only [GetID, hsr, if_true, hload, GetID.receive, hcache]
      rw [hs]
    · refine ⟨L + c - 1, by simp [Nat.add_assoc], ?_, by rw [hf1, hfaults], by omega, by omega,
        ?_, hids1⟩
      · have : st1.version "sequence" s0.docType s0.id
            = r.st.version "sequence" s0.docType s0.id + c := by
          have := hv1
          rw [hs] at this
          exact this
        rw [this, hv]; omega
      · simp only [hsr, if_true]
        rw [Nat.add_mul]
        omega
  · -- the cache is above the threshold
    have hsr : GetID.startsRefill r.s = false := by
      simp only [GetID.startsRefill, hs, freshIDs_length, hsize, decide_eq_false_iff_not]
      intro h
      exact hstart (by exact_mod_cast h)
    have hcache : freshIDs (v0 + n) L
        = Int.ofNat (v0 + n + 1) :: freshIDs (v0 + n + 1) (L - 1) := by
      rw [show L = (L - 1) + 1 by omega, freshIDs_succ]
      simp
    refine ⟨{ s0 with cache := freshIDs (v0 + n + 1) (L - 1) }, r.st, ?_, ?_⟩
    · simp only [GetID, hsr, GetID.receive, Bool.false_eq_true, if_false]
      rw [hs]
      simp only [hcache]
    · refine ⟨L - 1, by simp [Nat.add_assoc], ?_, hfaults, by omega, by omega, ?_, hids1⟩
      · rw [hv]; omega
      · simp only [hsr]
        simp only [Bool.false_eq_true, if_false, Nat.add_zero]
        omega

theorem GetIDs_inv (s0 : sequence) (st0 : Store) (v0 c : Nat)
    (hid : s0.id ≠ "") (hc : 1 ≤ c) (hsize : s0.cacheSize = c) (hcap : s0.cacheCap = 2 * c)
    (hf : Op.bulk ∉ st0.faults) (hcache : s0.cache = freshIDs v0 c)
    (hv : st0.version "sequence" s0.docType s0.id = v0 + c) :
    ∀ n, ∃ r, GetIDs s0 st0 n = .ok r ∧ SeqInv s0 st0.faults v0 c n r
  | 0 => by
    refine ⟨⟨[], 0, s0, st0⟩, rfl, c, ?_, by simpa using hv, rfl, le_refl _, by omega, by simp, by simp⟩
    simp only [Nat.add_zero, ← hcache]
  | n + 1 => by
    obtain ⟨r, hr, hinv⟩ := GetIDs_inv s0 st0 v0 c hid hc hsize hcap hf hcache hv n
    obtain ⟨s1, st1, hget, hinv1⟩ := GetID_step s0 st0.faults v0 c n r hid hc hsize hcap hf hinv
    exact ⟨_, by simp only [GetIDs, hr, hget], hinv1⟩

/-! ## Construction in the sequential schedule -/

theorem newSequence_not_started (client : Elastic) (st st1 : Store) (s : sequence)
    (err : Option Error) (h : newSequence client st = .ok (s, err, false, st1)) :
    err ≠ none := by
  unfold newSequence at h
  split at h
  · exact absurd h (by simp)
  · simp only at h
    split at h
    · simp only [Outcome.ok.injEq, Prod.mk.injEq] at h
      rw [← h.2.1]; simp
    · split at h
      · simp only [Outcome.ok.injEq, Prod.mk.injEq] at h
        rw [← h.2.1]; simp
      · simp at h

theorem loadIDs_inv (s s1 : sequence) (st st1 : Store) (size : Int)
    (h : loadIDs s st size = .ok (s1, st1)) : 0 < size ∧ Op.bulk ∉ st.faults := by
  unfold loadIDs at h
  rw [getIDs_eq] at h
  split at h
  · simp [Succeeded] at h
  · rename_i hsize
    split at h
    · simp [Succeeded] at h
    · rename_i hf
      exact ⟨by omega, hf⟩

/-- A refill that completes found room in the channel for all its values. -/
theorem loadIDs_cap (s s1 : sequence) (st st1 : Store) (size : Int) (hid : s.id ≠ "")
    (h : loadIDs s st size = .ok (s1, st1)) :
    (s.cache.length : Int) + size ≤ s.cacheCap := by
  obtain ⟨hpos, hf⟩ := loadIDs_inv s s1 st st1 size h
  obtain ⟨st2, res, hres⟩ := getIDs_ok s st size hf hpos
  obtain ⟨-, hitems, hstatus, -⟩ := getIDs_some s st st2 size res hid hres
  have hlen : res.Items.length = size.toNat := by
    have := congrArg List.length hitems
    simpa using this
  unfold loadIDs at h
  rw [hres] at h
  simp only at h
  rw [Succeeded_all res.Items hstatus] at h
  simp only at h
  rcases hsend : sendAll s res.Items with s2 | _ | _
  · have hne : res.Items ≠ [] := by
      intro h0
      rw [h0] at hlen
      simp only [List.length_nil] at hlen
      omega
    have := sendAll_inv res.Items s s2 hsend hne
    rw [hlen] at this
    omega
  · rw [hsend] at h; simp at h
  · rw [hsend] at h; simp at h

theorem SetSequenceAutoIncrementSeq_of_started (es : Elastic) (st st1 : Store) (c : Int)
    (s : sequence) (hc : 0 ≤ c) (hr : c * 2 ≤ maxInt) (hf : Op.bulk ∉ st1.faults)
    (hnew : SetSequenceAutoIncrement es st c = .ok
      ({ es with sequenceCacheSize := if c = 0 then 1 else c, sequence := some s },
        none, true, st1))
    (hs : s = sequenceLiteral { es with sequenceCacheSize := if c = 0 then 1 else c })
    (hid : s.id ≠ "") :
    ∃ st2, SetSequenceAutoIncrementSeq es st c = .ok
        ({ es with
            sequenceCacheSize := if c = 0 then 1 else c
            sequence := some { s with
              cache := freshIDs (st1.version "sequence" s.docType s.id)
                (if c = 0 then 1 else c).toNat } },
          none, st2) ∧
      st2.version "sequence" s.docType s.id
        = st1.version "sequence" s.docType s.id + (if c = 0 then 1 else c).toNat ∧
      st2.faults = st1.faults := by
  have hsize : s.cacheSize = if c = 0 then 1 else c := by rw [hs]; rfl
  have hcache : s.cache = [] := by rw [hs]; rfl
  have hpos : 0 < (if c = 0 then 1 else c) := by split <;> omega
  have hC2 : (if c = 0 then 1 else c) * 2 ≤ maxInt := by
    unfold maxInt at hr ⊢
    split <;> omega
  have hcap : s.cacheCap = (if c = 0 then 1 else c) * 2 := by
    rw [hs]
    show wrapInt ((if c = 0 then 1 else c) * 2) = (if c = 0 then 1 else c) * 2
    exact wrapInt_of_range _ (by omega) hC2
  obtain ⟨st2, hload, hv, hfaults⟩ := loadIDs_ok s st1 s.cacheSize hid hf (by rw [hsize]; exact hpos)
    (by rw [hcache, hcap, hsize]; simp only [List.length_nil, Nat.cast_zero]; omega)
  rw [hsize] at hload hv
  refine ⟨st2, ?_, hv, hfaults⟩
  simp only [SetSequenceAutoIncrementSeq, hnew, hsize, hload, hcache, List.nil_append]

theorem seq_constructed (es es1 : Elastic) (st0 st1 : Store) (c : Int) (s1 : sequence)
    (h : SetSequenceAutoIncrementSeq es st0 c = .ok (es1, none, st1))
    (hs : es1.sequence = some s1) :
    ∃ v0 C : Nat, 1 ≤ C ∧ (C : Int) = (if c = 0 then 1 else c) ∧ s1.id ≠ "" ∧
      s1.cacheSize = C ∧ s1.cacheCap = 2 * C ∧ s1.cache = freshIDs v0 C ∧
      st1.version "sequence" s1.docType s1.id = v0 + C ∧ Op.bulk ∉ st1.faults := by
  unfold SetSequenceAutoIncrementSeq SetSequenceAutoIncrement at h
  rcases hnew : newSequence { es with sequenceCacheSize := if c = 0 then 1 else c } st0 with
    ⟨s, err, started, st⟩ | _ | _
  · simp only [hnew] at h
    cases started with
    | false =>
      simp only [Outcome.ok.injEq, Prod.mk.injEq] at h
      exact absurd h.2.1 (newSequence_not_started _ _ _ _ _ hnew)
    | true =>
      obtain ⟨-, hlit, hid, -⟩ := newSequence_started _ _ _ _ _ hnew
      simp only at h
      rcases hload : loadIDs s st s.cacheSize with ⟨s2, st2⟩ | _ | _
      · rw [hload] at h
        simp only [Outcome.ok.injEq, Prod.mk.injEq] at h
        obtain ⟨hes, -, hst⟩ := h
        subst hst
        have hs2 : s1 = s2 := by
          rw [← hes] at hs
          simpa using hs.symm
        subst hs2
        obtain ⟨hpos, hf⟩ := loadIDs_inv _ _ _ _ _ hload
        have hsize : s.cacheSize = if c = 0 then 1 else c := by rw [hlit]; rfl
        have hcache : s.cache = [] := by rw [hlit]; rfl
        have hcapw : s.cacheCap = wrapInt ((if c = 0 then 1 else c) * 2) := by rw [hlit]; rfl
        have hroom := loadIDs_cap s _ st _ s.cacheSize hid hload
        rw [hcache, hcapw, hsize] at hroom
        simp only [List.length_nil, Nat.cast_zero, zero_add] at hroom
        rw [hsize] at hpos
        have hcap : s.cacheCap = (if c = 0 then 1 else c) * 2 := by
          rw [hcapw]
          exact wrapInt_double _ (by omega) hroom
        rw [← hsize] at hpos
        obtain ⟨st3, hload3, hv, hfaults⟩ := loadIDs_ok s st s.cacheSize hid hf hpos
          (by rw [hcache, hcap, hsize]; simp only [List.length_nil, Nat.cast_zero]; omega)
        rw [hload] at hload3
        simp only [Outcome.ok.injEq, Prod.mk.injEq] at hload3
        obtain ⟨h1, h2⟩ := hload3
        subst h2
        rw [h1]
        refine ⟨st.version "sequence" s.docType s.id, s.cacheSize.toNat, by omega, ?_, hid, ?_, ?_,
          by simp [hcache], hv, by rw [hfaults]; exact hf⟩
        · rw [← hsize]; omega
        · simp only; omega
        · simp only [hcap, ← hsize]; omega
      · rw [hload] at h; simp at h
      · rw [hload] at h; simp at h
  · simp [hnew] at h
  · simp [hnew] at h

theorem GetIDs_constructed (es es1 : Elastic) (st0 st1 : Store) (c : Int) (s1 : sequence)
    (h : SetSequenceAutoIncrementSeq es st0 c = .ok (es1, none, st1))
    (hs : es1.sequence = some s1) :
    ∃ v0 C : Nat, 1 ≤ C ∧ (C : Int) = (if c = 0 then 1 else c) ∧
      s1.cacheSize = C ∧ s1.cacheCap = 2 * C ∧ Op.bulk ∉ st1.faults ∧ s1.id ≠ "" ∧
      st1.version "sequence" s1.docType s1.id = v0 + C ∧
      ∀ n, ∃ r, GetIDs s1 st1 n = .ok r ∧ SeqInv s1 st1.faults v0 C n r := by
  obtain ⟨v0, C, hC, hCc, hid, hsize, hcap, hcache, hv, hf⟩ := seq_constructed es es1 st0 st1 c s1 h hs
  exact ⟨v0, C, hC, hCc, hsize, hcap, hf, hid, hv,
    GetIDs_inv s1 st1 v0 C hid hC hsize hcap hf hcache hv⟩

/-! ## What the invariant gives -/

theorem Inv_init (floor : Nat) (s : sequence) (st : Store) (started : Bool) (hid : s.id ≠ "")
    (hcache : s.cache = []) (hfloor : floor ≤ st.version "sequence" s.docType s.id) :
    Inv floor (World.init s st started) :=
  ⟨hid, hfloor, [], rfl, by simp [World.held, World.init, hcache],
    by simp [World.held, World.init, hcache]⟩

theorem issued_above (floor : Nat) (w : World) (h : Inv floor w) :
    ∀ id ∈ w.issued, ∃ v : Nat, floor < v ∧ id = Itoa (v : Int) := by
  obtain ⟨-, -, vs, hissued, -, hbound⟩ := h
  intro id hid
  rw [hissued, List.mem_map] at hid
  obtain ⟨x, hx, rfl⟩ := hid
  have hb := (hbound x (by simp [World.held, hx])).1
  refine ⟨x.toNat, by omega, ?_⟩
  rw [Int.toNat_of_nonneg (by omega)]

theorem issued_nodup (floor : Nat) (w : World) (h : Inv floor w) : w.issued.Nodup := by
  obtain ⟨-, -, vs, hissued, hnd, hbound⟩ := h
  rw [hissued]
  have hvs : vs.Nodup := by
    simp only [World.held, List.append_assoc] at hnd
    exact (List.nodup_append.mp hnd).1
  refine List.Nodup.map_on ?_ hvs
  intro x hx y hy hxy
  have h1 := (hbound x (by simp [World.held, hx])).1
  have h2 := (hbound y (by simp [World.held, hy])).1
  have hx' : x = ((x.toNat : Nat) : Int) := (Int.toNat_of_nonneg (by omega)).symm
  have hy' : y = ((y.toNat : Nat) : Int) := (Int.toNat_of_nonneg (by omega)).symm
  rw [hx', hy'] at hxy
  have := Itoa_natCast_injective _ _ hxy
  omega

theorem SeqInv_ids_nodup (s0 : sequence) (faults : List Op) (v0 c n : Nat) (r : Run)
    (h : SeqInv s0 faults v0 c n r) : r.ids.length = n ∧ r.ids.Nodup := by
  obtain ⟨L, -, -, -, -, -, -, hids⟩ := h
  rw [hids]
  refine ⟨by simp, List.Nodup.map_on ?_ (List.nodup_range' _ _)⟩
  intro x _ y _ hxy
  exact Itoa_natCast_injective x y hxy

theorem SetSequenceAutoIncrement_inv (es es1 : Elastic) (st st1 : Store) (c : Int)
    (err : Option Error) (started : Bool)
    (h : SetSequenceAutoIncrement es st c = .ok (es1, err, started, st1)) :
    ∃ s, newSequence { es with sequenceCacheSize := if c = 0 then 1 else c } st
        = .ok (s, err, started, st1) ∧
      es1 = { es with sequenceCacheSize := if c = 0 then 1 else c, sequence := some s } := by
  unfold SetSequenceAutoIncrement at h
  rcases hnew : newSequence { es with sequenceCacheSize := if c = 0 then 1 else c } st with
    ⟨s, err1, started1, st2⟩ | _ | _
  · simp only [hnew, Outcome.ok.injEq, Prod.mk.injEq] at h
    obtain ⟨h1, h2, h3, h4⟩ := h
    subst h2 h3 h4
    exact ⟨s, rfl, h1.symm⟩
  · simp [hnew] at h
  · simp [hnew] at h

theorem SetSequenceAutoIncrement_started (es es1 : Elastic) (st st1 : Store) (c : Int)
    (s : sequence) (h : SetSequenceAutoIncrement es st c = .ok (es1, none, true, st1))
    (hs : es1.sequence = some s) :
    es1 = { es with sequenceCacheSize := if c = 0 then 1 else c, sequence := some s } ∧
    s = sequenceLiteral { es with sequenceCacheSize := if c = 0 then 1 else c } ∧
    s.id ≠ "" ∧ 0 ≤ wrapInt ((if c = 0 then 1 else c) * 2) := by
  obtain ⟨s1, hnew, hes⟩ := SetSequenceAutoIncrement_inv es es1 st st1 c none true h
  obtain ⟨-, hlit, hid, hc⟩ := newSequence_started _ _ _ _ _ hnew
  have hs1 : s1 = s := by
    rw [hes] at hs
    simpa using hs
  subst hs1
  exact ⟨hes, hlit, hid, hc⟩

/-- A run of the sequential schedule exists after a construction that
started its refill, when the cache size is a non-negative `int` and the bulk
call of the store works. -/
theorem sequential_run (es es1 : Elastic) (st st1 : Store) (c : Int) (s : sequence)
    (h : SetSequenceAutoIncrement es st c = .ok (es1, none, true, st1))
    (hs : es1.sequence = some s) (hc : 0 ≤ c) (hr : c ≤ maxInt)
    (hf : Op.bulk ∉ st1.faults) :
    ∃ es2 st2 s2, SetSequenceAutoIncrementSeq es st c = .ok (es2, none, st2) ∧
      es2.sequence = some s2 ∧ s2.docType = s.docType ∧ s2.id = s.id ∧
      ∃ C : Nat, 1 ≤ C ∧ (C : Int) = (if c = 0 then 1 else c) ∧
        s2.cacheSize = C ∧ s2.cacheCap = 2 * C ∧ s2.id ≠ "" ∧ Op.bulk ∉ st2.faults ∧
        ∀ n, ∃ r, GetIDs s2 st2 n = .ok r ∧
          SeqInv s2 st2.faults (st1.version "sequence" s.docType s.id) C n r := by
  obtain ⟨hes, hlit, hid, hw⟩ := SetSequenceAutoIncrement_started es es1 st st1 c s h hs
  rw [hes] at h
  have hpos : 0 < (if c = 0 then 1 else c) := by split <;> omega
  have hle : (if c = 0 then 1 else c) ≤ maxInt := by
    unfold maxInt at hr ⊢
    split <;> omega
  have hC2 := wrapInt_double_nonneg _ (by omega) hle hw
  have hr2 : c * 2 ≤ maxInt := by
    unfold maxInt at hC2 ⊢
    split at hC2 <;> omega
  obtain ⟨st2, hseq, hv, hfaults⟩ :=
    SetSequenceAutoIncrementSeq_of_started es st st1 c s hc hr2 hf h hlit hid
  have hsize : s.cacheSize = if c = 0 then 1 else c := by rw [hlit]; rfl
  have hcap : s.cacheCap = (if c = 0 then 1 else c) * 2 := by
    rw [hlit]
    show wrapInt ((if c = 0 then 1 else c) * 2) = (if c = 0 then 1 else c) * 2
    exact wrapInt_of_range _ (by omega) hC2
  refine ⟨_, st2, _, hseq, rfl, rfl, rfl, (if c = 0 then 1 else c).toNat, by omega, by omega, ?_, ?_,
    hid, by rw [hfaults]; exact hf, ?_⟩
  · simp only [hsize]; omega
  · simp only [hcap]; omega
  · refine GetIDs_inv _ st2 _ _ hid (by omega) ?_ ?_ (by rw [hfaults]; exact hf) rfl hv
    · simp only [hsize]; omega
    · simp only [hcap]; omega

/-- In the sequential schedule the first call of `GetID` returns the version
after the one the counter document had when the construction ended. -/
theorem first_GetID (es es1 : Elastic) (st st1 : Store) (c : Int) (s : sequence)
    (h : SetSequenceAutoIncrement es st c = .ok (es1, none, true, st1))
    (hs : es1.sequence = some s) (hc : 0 ≤ c) (hr : c ≤ maxInt)
    (hf : Op.bulk ∉ st1.faults) :
    ∃ es2 st2 s2 s3 st3, SetSequenceAutoIncrementSeq es st c = .ok (es2, none, st2) ∧
      es2.sequence = some s2 ∧
      GetID s2 st2
        = .ok (Itoa (Int.ofNat (st1.version "sequence" s.docType s.id + 1)), s3, st3) := by
  obtain ⟨es2, st2, s2, hseq, hs2, -, -, C, hC, -, hsize, hcap, hid, hf2, hrun⟩ :=
    sequential_run es es1 st st1 c s h hs hc hr hf
  obtain ⟨r, hrun0, hinv⟩ := hrun 0
  simp only [GetIDs, Outcome.ok.injEq] at hrun0
  subst hrun0
  obtain ⟨s3, st3, hget, -⟩ := GetID_step s2 st2.faults _ C 0 _ hid hC hsize hcap hf2 hinv
  exact ⟨es2, st2, s2, s3, st3, hseq, hs2, hget⟩

/-! ## C1 -/

/-- C1: the values returned by the calls of `GetID` on one sequence are
pairwise distinct. In every world that the process can reach after the
sequence was constructed, with refills delivered in any order and other
clients advancing the counter document, `issued` has no duplicates; and in
the sequential schedule, when the cache size is a non-negative `int` and the
bulk call of the store works, the first `N` calls do return `N` pairwise
distinct values. -/
theorem C1_issued_ids_pairwise_distinct (es es1 : Elastic) (st st1 : Store) (c : Int)
    (s : sequence) (hset : SetSequenceAutoIncrement es st c = .ok (es1, none, true, st1))
    (hs : es1.sequence = some s) :
    (∀ w, Reachable (World.init s st1 true) w → w.issued.Nodup) ∧
    (0 ≤ c → c ≤ maxInt → Op.bulk ∉ st1.faults → ∀ N, ∃ es2 st2 s2 r,
      SetSequenceAutoIncrementSeq es st c = .ok (es2, none, st2) ∧ es2.sequence = some s2 ∧
      GetIDs s2 st2 N = .ok r ∧ r.ids.length = N ∧ r.ids.Nodup) := by
  obtain ⟨-, hlit, hid, -⟩ := SetSequenceAutoIncrement_started es es1 st st1 c s hset hs
  constructor
  · intro w hw
    have h0 : Inv 0 (World.init s st1 true) :=
      Inv_init 0 s st1 true hid (by rw [hlit]; rfl) (Nat.zero_le _)
    exact issued_nodup 0 w (Inv_reachable 0 _ w h0 hw)
  · intro hc hr hf N
    obtain ⟨es2, st2, s2, hseq, hs2, -, -, C, -, -, -, -, -, -, hrun⟩ :=
      sequential_run es es1 st st1 c s hset hs hc hr hf
    obtain ⟨r, hr, hinv⟩ := hrun N
    exact ⟨es2, st2, s2, r, hseq, hs2, hr, SeqInv_ids_nodup _ _ _ _ _ _ hinv⟩

theorem C1_issued_ids_pairwise_distinct_witness :
    (∃ w, Reachable
        (World.init (sequenceLiteral { testClient with sequenceCacheSize := 2 })
          { emptyStore with indices := ["sequence"] } true) w ∧
      w.issued = ["2", "1"] ∧ w.issued.Nodup) ∧
    (∃ es2 st2 s2 r,
      SetSequenceAutoIncrementSeq testClient emptyStore 100 = .ok (es2, none, st2) ∧
      es2.sequence = some s2 ∧ GetIDs s2 st2 200 = .ok r ∧ r.ids.length = 200 ∧
      r.ids.Nodup) := by
  have hset2 : SetSequenceAutoIncrement testClient emptyStore 2 = .ok
      ({ testClient with
          sequenceCacheSize := 2
          sequence := some (sequenceLiteral { testClient with sequenceCacheSize := 2 }) },
        none, true, { emptyStore with indices := ["sequence"] }) := by decide
  have hset100 : SetSequenceAutoIncrement testClient emptyStore 100 = .ok
      ({ testClient with
          sequenceCacheSize := 100
          sequence := some (sequenceLiteral { testClient with sequenceCacheSize := 100 }) },
        none, true, { emptyStore with indices := ["sequence"] }) := by decide
  have h2 := C1_issued_ids_pairwise_distinct testClient _ emptyStore _ 2 _ hset2 rfl
  have h100 := C1_issued_ids_pairwise_distinct testClient _ emptyStore _ 100 _ hset100 rfl
  refine ⟨?_, h100.2 (by decide) (by decide) (by decide) 200⟩
  have step1 := Step.refill
    (World.init (sequenceLiteral { testClient with sequenceCacheSize := 2 })
      { emptyStore with indices := ["sequence"] } true)
    { emptyStore with
        indices := ["sequence"]
        docs := [⟨"sequence", "unit_test", "sequence_test", 2⟩] }
    ⟨[⟨"sequence_test", 1, 201⟩, ⟨"sequence_test", 2, 200⟩]⟩
    [⟨"sequence_test", 2, 200⟩, ⟨"sequence_test", 1, 201⟩]
    [⟨"sequence_test", 2, 200⟩, ⟨"sequence_test", 1, 201⟩]
    (by decide) (by decide) (List.Perm.swap _ _ []).subperm (by decide)
  have r1 := Relation.ReflTransGen.single step1
  have r2 := Relation.ReflTransGen.tail r1 (Step.push _ [] [] 2 [1] _ (by rfl) (by rfl))
  have r3 := Relation.ReflTransGen.tail r2 (Step.call _)
  have r4 := Relation.ReflTransGen.tail r3 (Step.receive _ _ _ (by decide) (by rfl))
  have r5 := Relation.ReflTransGen.tail r4 (Step.push _ [] [] 1 [] _ (by rfl) (by rfl))
  have r6 := Relation.ReflTransGen.tail r5 (Step.call _)
  have r7 := Relation.ReflTransGen.tail r6 (Step.receive _ _ _ (by decide) (by rfl))
  exact ⟨_, r7, by decide, h2.1 _ r7⟩

/-! ## Bootstrap of `SetSequenceAutoIncrement` -/

theorem SetSequenceAutoIncrement_eq (es : Elastic) (st : Store) (c : Int) (hc : 0 ≤ c)
    (hr : c * 2 ≤ maxInt) (hf : Op.indexExists ∉ st.faults) :
    SetSequenceAutoIncrement es st c =
      match checkMySequence
          (sequenceLiteral { es with sequenceCacheSize := if c = 0 then 1 else c })
          (checkSequenceIndex st).1 with
      | (st2, some e) => .ok
          ({ es with
              sequenceCacheSize := if c = 0 then 1 else c
              sequence := some
                (sequenceLiteral { es with sequenceCacheSize := if c = 0 then 1 else c }) },
            some e, false, st2)
      | (st2, none) => .ok
          ({ es with
              sequenceCacheSize := if c = 0 then 1 else c
              sequence := some
                (sequenceLiteral { es with sequenceCacheSize := if c = 0 then 1 else c }) },
            none, true, st2) := by
  have hpos : 0 ≤ (if c = 0 then 1 else c) * 2 := by split <;> omega
  have hC2 : (if c = 0 then 1 else c) * 2 ≤ maxInt := by
    unfold maxInt at hr ⊢
    split <;> omega
  have hw : 0 ≤ wrapInt
      (({ es with sequenceCacheSize := if c = 0 then 1 else c } : Elastic).sequenceCacheSize
        * 2) := by
    show 0 ≤ wrapInt ((if c = 0 then 1 else c) * 2)
    rw [wrapInt_of_range _ hpos hC2]
    exact hpos
  unfold SetSequenceAutoIncrement
  simp only
  rw [newSequence_eq _ st hw hf]
  rcases checkMySequence _ (checkSequenceIndex st).1 with ⟨st2, _ | e⟩ <;> rfl

theorem Store.hasDoc_congr (st st1 : Store) (h : st1.docs = st.docs) (i t d : String) :
    st1.hasDoc i t d = st.hasDoc i t d := by
  simp [Store.hasDoc, h]

theorem Store.version_congr (st st1 : Store) (h : st1.docs = st.docs) (i t d : String) :
    st1.version i t d = st.version i t d := by
  simp [Store.version, h]

theorem Store.ids_congr (st st1 : Store) (h : st1.docs = st.docs) (i t : String) :
    st1.ids i t = st.ids i t := by
  simp [Store.ids, h]

theorem Store.version_of_not_hasDoc (st : Store) (i t d : String)
    (h : st.hasDoc i t d = false) : st.version i t d = 0 :=
  versionOf_of_not_hasDoc i t d st.docs h

/-- Bootstrap on a collection of decimal identifiers with maximum `M`. -/
theorem checkMySequence_floor (s : sequence) (st : Store) (M : Nat)
    (h1 : s.docType ≠ "") (h2 : s.id ≠ "") (hfaults : st.faults = [])
    (hdoc : st.hasDoc "sequence" s.docType s.id = false)
    (hmax : Itoa (M : Int) ∈ st.ids s.clientIndex s.clientDocType)
    (hids : ∀ id ∈ st.ids s.clientIndex s.clientDocType,
      (∃ n : Nat, n ≤ M ∧ id = Itoa (n : Int)) ∨ id.length < (Itoa (M : Int)).length)
    (hM : 0 < M) (hrange : (M : Int) ≤ maxInt) :
    ∃ st1, checkMySequence s st = (st1, none) ∧
      st1.version "sequence" s.docType s.id = M ∧ st1.faults = [] := by
  have hmaxid : getMaxID s st = .ok (M : Int) := by
    rw [getMaxID_eq s st (by simp [hfaults]), topHit_decimal M _ hmax hids]
    simp only [Atoi_Itoa M hrange]
  obtain ⟨st1, res, hget⟩ := getIDs_ok s st (M : Int) (by simp [hfaults]) (by exact_mod_cast hM)
  obtain ⟨hv, -, -, hf⟩ := getIDs_some s st st1 _ res h2 hget
  refine ⟨st1, ?_, ?_, by rw [hf, hfaults]⟩
  · have hpos : (0 : Int) < (M : Int) := by exact_mod_cast hM
    simp [checkMySequence, docExists, h1, h2, hfaults, hdoc, hmaxid, hpos, writeLastID, hget]
  · rw [hv, Store.version_of_not_hasDoc st _ _ _ hdoc]
    simp

/-! ## C2 -/

/-- C2 (as stated, refuted): the identifier `9223372036854775808` is a
canonical non-negative decimal integer, the only one of the collection, and
no counter document exists; `Atoi` returns a range error for it, so
`SetSequenceAutoIncrement` returns that error, starts no refill and leaves
the counter document at 0 instead of advancing it. -/
theorem C2_counterexample :
    (∀ id ∈ (storeWith "unit_test" "sequence_test2" ["9223372036854775808"]).ids
        "unit_test" "sequence_test2", id = Itoa 9223372036854775808) ∧
    (storeWith "unit_test" "sequence_test2" ["9223372036854775808"]).hasDoc
        "sequence" "unit_test" "sequence_test2" = false ∧
    ∃ es1 st1,
      SetSequenceAutoIncrement (New "unit_test" "sequence_test2")
          (storeWith "unit_test" "sequence_test2" ["9223372036854775808"]) 1
        = .ok (es1, some (.num .ErrRange), false, st1) ∧
      st1.version "sequence" "unit_test" "sequence_test2" = 0 :=
  ⟨by decide, by decide, _, _, rfl, by decide⟩

/-- C2 (amended): on a target collection whose identifiers are the canonical
decimal forms of non-negative integers with maximum `M`, `0 < M ≤ maxInt`,
and without counter document, in a store whose calls succeed, for a cache
size `c ≥ 0` whose double fits an `int`, `SetSequenceAutoIncrement` succeeds and takes the counter document from 0 to
exactly `M`. Every value that `GetID` returns afterwards, in any schedule,
is the decimal form of an integer above `M` (and `Atoi` reads it back while
it fits an `int`), and in the sequential schedule the first call returns
`M + 1`. -/
theorem C2_bootstrap_floor (es : Elastic) (st : Store) (c : Int) (M : Nat)
    (hindex : es.index ≠ "") (htype : es.docType ≠ "") (hc : 0 ≤ c) (hr : c * 2 ≤ maxInt)
    (hfaults : st.faults = [])
    (hdoc : st.hasDoc "sequence" es.index es.docType = false)
    (hmax : Itoa (M : Int) ∈ st.ids es.index es.docType)
    (hids : ∀ id ∈ st.ids es.index es.docType, ∃ n : Nat, n ≤ M ∧ id = Itoa (n : Int))
    (hM : 0 < M) (hrange : (M : Int) ≤ maxInt) :
    ∃ es1 st1 s, SetSequenceAutoIncrement es st c = .ok (es1, none, true, st1) ∧
      es1.sequence = some s ∧
      st.version "sequence" es.index es.docType = 0 ∧
      st1.version "sequence" es.index es.docType = M ∧
      (∀ w, Reachable (World.init s st1 true) w → ∀ id ∈ w.issued,
        ∃ v : Nat, M < v ∧ id = Itoa (v : Int) ∧
          ((v : Int) ≤ maxInt → Atoi id = .ok (v : Int))) ∧
      (∃ es2 st2 s2 s3 st3, SetSequenceAutoIncrementSeq es st c = .ok (es2, none, st2) ∧
        es2.sequence = some s2 ∧
        GetID s2 st2 = .ok (Itoa (Int.ofNat (M + 1)), s3, st3)) := by
  have hcs := checkSequenceIndex_ok st (by simp [hfaults])
  obtain ⟨st1, hcheck, hv, hf1⟩ := checkMySequence_floor
    (sequenceLiteral { es with sequenceCacheSize := if c = 0 then 1 else c })
    (checkSequenceIndex st).1 M hindex htype (by rw [hcs.2.2, hfaults])
    (by rw [Store.hasDoc_congr _ _ hcs.2.1]; exact hdoc)
    (by rw [Store.ids_congr _ _ hcs.2.1]; exact hmax)
    (by rw [Store.ids_congr _ _ hcs.2.1]; exact fun id hid => Or.inl (hids id hid))
    hM hrange
  have hr1 : c ≤ maxInt := by
    unfold maxInt at hr ⊢
    omega
  have hset := SetSequenceAutoIncrement_eq es st c hc hr (by simp [hfaults])
  rw [hcheck] at hset
  simp only at hset
  refine ⟨_, st1, _, hset, rfl, Store.version_of_not_hasDoc st _ _ _ hdoc, hv, ?_, ?_⟩
  · intro w hw id hid
    have h0 : Inv M (World.init
        (sequenceLiteral { es with sequenceCacheSize := if c = 0 then 1 else c }) st1 true) :=
      Inv_init M _ st1 true htype rfl (le_of_eq hv.symm)
    obtain ⟨v, hv1, hv2⟩ := issued_above M w (Inv_reachable M _ w h0 hw) id hid
    exact ⟨v, hv1, hv2, fun hr => hv2 ▸ Atoi_Itoa v hr⟩
  · obtain ⟨es2, st2, s2, s3, st3, hseq, hs2, hget⟩ :=
      first_GetID es _ st st1 c _ hset rfl hc hr1 (by simp [hf1])
    refine ⟨es2, st2, s2, s3, st3, hseq, hs2, ?_⟩
    rw [hget]
    have hv' : st1.version "sequence"
        (sequenceLiteral { es with sequenceCacheSize := if c = 0 then 1 else c }).docType
        (sequenceLiteral { es with sequenceCacheSize := if c = 0 then 1 else c }).id = M := hv
    rw [hv']

/-- C2, at the collection `{5, 12, 19}` of the specification with cache
size 1: the counter document goes from 0 to 19 and the first value issued
is 20. -/
theorem C2_bootstrap_floor_witness :
    ∃ es1 st1 s,
      SetSequenceAutoIncrement (New "unit_test" "sequence_test2")
          (storeWith "unit_test" "sequence_test2" ["5", "12", "19"]) 1
        = .ok (es1, none, true, st1) ∧
      es1.sequence = some s ∧
      (storeWith "unit_test" "sequence_test2" ["5", "12", "19"]).version
        "sequence" "unit_test" "sequence_test2" = 0 ∧
      st1.version "sequence" "unit_test" "sequence_test2" = 19 ∧
      (∀ w, Reachable (World.init s st1 true) w → ∀ id ∈ w.issued,
        ∃ v : Nat, 19 < v ∧ id = Itoa (v : Int) ∧
          ((v : Int) ≤ maxInt → Atoi id = .ok (v : Int))) ∧
      (∃ es2 st2 s2 s3 st3,
        SetSequenceAutoIncrementSeq (New "unit_test" "sequence_test2")
            (storeWith "unit_test" "sequence_test2" ["5", "12", "19"]) 1
          = .ok (es2, none, st2) ∧
        es2.sequence = some s2 ∧ GetID s2 st2 = .ok (Itoa (Int.ofNat (19 + 1)), s3, st3)) :=
  C2_bootstrap_floor (New "unit_test" "sequence_test2")
    (storeWith "unit_test" "sequence_test2" ["5", "12", "19"]) 1 19
    (by decide) (by decide) (by decide) (by decide) (by decide) (by decide) (by decide)
    (by
      intro id hid
      have hl : (storeWith "unit_test" "sequence_test2" ["5", "12", "19"]).ids
          (New "unit_test" "sequence_test2").index (New "unit_test" "sequence_test2").docType
          = ["5", "12", "19"] := by decide
      rw [hl] at hid
      have h : id = "5" ∨ id = "12" ∨ id = "19" := by simpa using hid
      rcases h with rfl | rfl | rfl
      · exact ⟨5, by decide, by decide⟩
      · exact ⟨12, by decide, by decide⟩
      · exact ⟨19, by decide, by decide⟩)
    (by decide) (by decide)

/-! ## C3 -/

/-- C3: when the counter document of the sequence exists at a version of at
least `K`, constructing a sequence on the same name, with a cache size
`c ≥ 0` whose double fits an `int`, succeeds without a scan
and without increments: no assumption is made on the target collection or
on the search call, `checkMySequence` returns the store as it got it, and
the documents of the store are unchanged. Every value that `GetID` returns
afterwards, in any schedule, is the decimal form of an integer above `K`;
when the bulk call works, the first call of the sequential schedule returns
the version after the one found. -/
theorem C3_reattach_above_issued (es : Elastic) (st : Store) (c : Int) (K : Nat)
    (hindex : es.index ≠ "") (htype : es.docType ≠ "") (hc : 0 ≤ c) (hr : c * 2 ≤ maxInt)
    (hf1 : Op.indexExists ∉ st.faults) (hf2 : Op.docExists ∉ st.faults)
    (hdoc : st.hasDoc "sequence" es.index es.docType = true)
    (hK : K ≤ st.version "sequence" es.index es.docType) :
    ∃ es1 st1 s, SetSequenceAutoIncrement es st c = .ok (es1, none, true, st1) ∧
      es1.sequence = some s ∧
      checkMySequence s st1 = (st1, none) ∧
      st1.docs = st.docs ∧
      st1.version "sequence" es.index es.docType
        = st.version "sequence" es.index es.docType ∧
      (∀ w, Reachable (World.init s st1 true) w → ∀ id ∈ w.issued,
        ∃ v : Nat, K < v ∧ id = Itoa (v : Int)) ∧
      (Op.bulk ∉ st.faults →
        ∃ es2 st2 s2 s3 st3, SetSequenceAutoIncrementSeq es st c = .ok (es2, none, st2) ∧
          es2.sequence = some s2 ∧
          GetID s2 st2 = .ok
            (Itoa (Int.ofNat (st.version "sequence" es.index es.docType + 1)), s3, st3)) := by
  have hcs := checkSequenceIndex_ok st hf1
  have hcheck := checkMySequence_exists
    (sequenceLiteral { es with sequenceCacheSize := if c = 0 then 1 else c })
    (checkSequenceIndex st).1 hindex htype (by rw [hcs.2.2]; exact hf2)
    (by rw [Store.hasDoc_congr _ _ hcs.2.1]; exact hdoc)
  have hr1 : c ≤ maxInt := by
    unfold maxInt at hr ⊢
    omega
  have hset := SetSequenceAutoIncrement_eq es st c hc hr hf1
  rw [hcheck] at hset
  simp only at hset
  have hv : (checkSequenceIndex st).1.version "sequence" es.index es.docType
      = st.version "sequence" es.index es.docType := Store.version_congr _ _ hcs.2.1 _ _ _
  refine ⟨_, _, _, hset, rfl, hcheck, hcs.2.1, hv, ?_, ?_⟩
  · intro w hw id hid
    have h0 : Inv K (World.init
        (sequenceLiteral { es with sequenceCacheSize := if c = 0 then 1 else c })
        (checkSequenceIndex st).1 true) :=
      Inv_init K _ _ true htype rfl (by rw [← hv] at hK; exact hK)
    exact issued_above K w (Inv_reachable K _ w h0 hw) id hid
  · intro hf3
    obtain ⟨es2, st2, s2, s3, st3, hseq, hs2, hget⟩ :=
      first_GetID es _ st _ c _ hset rfl hc hr1 (by rw [hcs.2.2]; exact hf3)
    refine ⟨es2, st2, s2, s3, st3, hseq, hs2, ?_⟩
    rw [hget]
    have hv' : (checkSequenceIndex st).1.version "sequence"
        (sequenceLiteral { es with sequenceCacheSize := if c = 0 then 1 else c }).docType
        (sequenceLiteral { es with sequenceCacheSize := if c = 0 then 1 else c }).id
        = st.version "sequence" es.index es.docType := hv
    rw [hv']

/-- C3, at a store whose counter document is at version 7, whose target
collection holds the identifier `asf2` and whose search call fails: the
construction succeeds all the same and every value issued is above 7. -/
theorem C3_reattach_above_issued_witness :
    ∃ es1 st1 s,
      SetSequenceAutoIncrement testClient
          { docs := [⟨"sequence", "unit_test", "sequence_test", 7⟩,
                     ⟨"unit_test", "sequence_test", "asf2", 1⟩]
            indices := ["sequence", "unit_test"], faults := [Op.search], generated := 0 } 1
        = .ok (es1, none, true, st1) ∧
      es1.sequence = some s ∧
      checkMySequence s st1 = (st1, none) ∧
      st1.docs = [⟨"sequence", "unit_test", "sequence_test", 7⟩,
                  ⟨"unit_test", "sequence_test", "asf2", 1⟩] ∧
      st1.version "sequence" "unit_test" "sequence_test" = 7 ∧
      (∀ w, Reachable (World.init s st1 true) w → ∀ id ∈ w.issued,
        ∃ v : Nat, 7 < v ∧ id = Itoa (v : Int)) ∧
      ∃ es2 st2 s2 s3 st3,
        SetSequenceAutoIncrementSeq testClient
            { docs := [⟨"sequence", "unit_test", "sequence_test", 7⟩,
                       ⟨"unit_test", "sequence_test", "asf2", 1⟩]
              indices := ["sequence", "unit_test"], faults := [Op.search], generated := 0 } 1
          = .ok (es2, none, st2) ∧
        es2.sequence = some s2 ∧ GetID s2 st2 = .ok ("8", s3, st3) := by
  obtain ⟨es1, st1, s, h1, h2, h3, h4, h5, h6, h7⟩ := C3_reattach_above_issued testClient
    { docs := [⟨"sequence", "unit_test", "sequence_test", 7⟩,
               ⟨"unit_test", "sequence_test", "asf2", 1⟩]
      indices := ["sequence", "unit_test"], faults := [Op.search], generated := 0 } 1 7
    (by decide) (by decide) (by decide) (by decide) (by decide) (by decide) (by decide)
    (by decide)
  exact ⟨es1, st1, s, h1, h2, h3, h4, h5, h6, h7 (by decide)⟩

/-! ## C4 -/

/-- C4 (as stated, refuted): on the collection `{"5", "asf2"}` the top hit of
the search is `asf2`, and `getMaxID` returns the syntax error of `Atoi`
instead of the floor 5; `SetSequenceAutoIncrement` returns that error. -/
theorem C4_counterexample :
    topHit ((storeWith "unit_test" "test" ["5", "asf2"]).ids "unit_test" "test")
      = some "asf2" ∧
    getMaxID (sequenceLiteral (New "unit_test" "test"))
        (storeWith "unit_test" "test" ["5", "asf2"]) = .error (.num .ErrSyntax) ∧
    ∃ es1 st1,
      SetSequenceAutoIncrement (New "unit_test" "test")
          (storeWith "unit_test" "test" ["5", "asf2"]) 1
        = .ok (es1, some (.num .ErrSyntax), false, st1) :=
  ⟨by decide, by decide, _, _, rfl⟩

/-- C4 (amended): when the search call works, `getMaxID` reads the single
top hit of the order (identifier length, then value) and nothing else. On an
empty collection the floor is 0. When the top hit is not an integer,
`getMaxID` returns the error of `Atoi`. A non-integer identifier is without
effect when it is shorter than the longest integer identifier: if the
collection holds the decimal form of `M ≤ maxInt` and every identifier is
the decimal form of some `n ≤ M` or is shorter than that of `M`, the floor
is `M`. -/
theorem C4_getMaxID_reads_top_hit (s : sequence) (st : Store) (hf : Op.search ∉ st.faults) :
    (st.ids s.clientIndex s.clientDocType = [] → getMaxID s st = .ok 0) ∧
    (∀ top e, topHit (st.ids s.clientIndex s.clientDocType) = some top →
      Atoi top = .error e → getMaxID s st = .error (.num e)) ∧
    (∀ M : Nat, (M : Int) ≤ maxInt →
      Itoa (M : Int) ∈ st.ids s.clientIndex s.clientDocType →
      (∀ id ∈ st.ids s.clientIndex s.clientDocType,
        (∃ n : Nat, n ≤ M ∧ id = Itoa (n : Int)) ∨ id.length < (Itoa (M : Int)).length) →
      getMaxID s st = .ok (M : Int)) := by
  refine ⟨?_, ?_, ?_⟩
  · intro h
    rw [getMaxID_eq s st hf, h]
    rfl
  · intro top e htop he
    rw [getMaxID_eq s st hf, htop]
    simp only [he]
  · intro M hM hmem hids
    rw [getMaxID_eq s st hf, topHit_decimal M _ hmem hids]
    simp only [Atoi_Itoa M hM]

/-- C4, at the collection `{"5", "12", "a"}`: the non-integer identifier `a`
is shorter than `12`, and the floor is 12. -/
theorem C4_getMaxID_reads_top_hit_witness :
    getMaxID (sequenceLiteral (New "unit_test" "test"))
      (storeWith "unit_test" "test" ["5", "12", "a"]) = .ok 12 :=
  (C4_getMaxID_reads_top_hit (sequenceLiteral (New "unit_test" "test"))
    (storeWith "unit_test" "test" ["5", "12", "a"]) (by decide)).2.2 12 (by decide) (by decide)
    (by
      intro id hid
      have hl : (storeWith "unit_test" "test" ["5", "12", "a"]).ids
          (sequenceLiteral (New "unit_test" "test")).clientIndex
          (sequenceLiteral (New "unit_test" "test")).clientDocType
          = ["5", "12", "a"] := by decide
      rw [hl] at hid
      have h : id = "5" ∨ id = "12" ∨ id = "a" := by simpa using hid
      rcases h with rfl | rfl | rfl
      · exact Or.inl ⟨5, by decide, by decide⟩
      · exact Or.inl ⟨12, by decide, by decide⟩
      · exact Or.inr (by decide))

/-! ## C5 -/

/-- C5 (the code at the failing input): on the collection `{"5", "asf2"}`
the bootstrap fails, `SetSequenceAutoIncrement` returns the error and starts
no refill, the counter document is still absent; but the client now holds
the sequence, and the next `Index(doc, "")` calls `GetID`, which starts a
refill that creates the counter document, and the document is indexed under
the identifier `1` obtained from the sequence. -/
theorem C5_failed_bootstrap_still_issues :
    ∃ es1 st1 s,
      SetSequenceAutoIncrement (New "unit_test" "test")
          (storeWith "unit_test" "test" ["5", "asf2"]) 1
        = .ok (es1, some (.num .ErrSyntax), false, st1) ∧
      SetSequenceAutoIncrementSeq (New "unit_test" "test")
          (storeWith "unit_test" "test" ["5", "asf2"]) 1
        = .ok (es1, some (.num .ErrSyntax), st1) ∧
      es1.sequence = some s ∧ s.cache = [] ∧
      st1.hasDoc "sequence" "unit_test" "test" = false ∧
      GetID.startsRefill s = true ∧
      ∃ es2 st2, Index es1 st1 "doc" "" = .ok (es2, st2, .ok "1") ∧
        st2.version "sequence" "unit_test" "test" = 1 ∧
        st2.ids "unit_test" "test" = ["5", "asf2", "1"] :=
  ⟨_, _, _, rfl, rfl, rfl, rfl, by decide, by decide, _, _, rfl, by decide, by decide⟩

/-! ## C6 -/

/-- C6 (the code at the failing input): when the bulk call of the store
fails, `getIDs` returns no response, and `loadIDs`, which only logs the
error, panics in `res.Succeeded()`; it does not complete. -/
theorem C6_refill_error_panics (s : sequence) (st : Store) (size : Int) :
    (getIDs s { st with faults := Op.bulk :: st.faults } size).2.1 = none ∧
    loadIDs s { st with faults := Op.bulk :: st.faults } size = .panic := by
  have h : (getIDs s { st with faults := Op.bulk :: st.faults } size).2.1 = none := by
    rw [getIDs_eq]
    split
    · rfl
    · simp
  refine ⟨h, ?_⟩
  unfold loadIDs
  simp only [h, Succeeded]

/-! ## C9 -/

/-- C9 (the code at every input): `BulkIndex` calls `Do` on a new
`client.Bulk()`, which has no actions: nothing is sent, the store is
unchanged, and the error of an empty bulk request is returned, whatever the
documents are. -/
theorem C9_BulkIndex_sends_nothing (es : Elastic) (st : Store) (docs : List String) :
    BulkIndex es st docs = (st, none, some .noBulkActions) := by
  rfl

/-! ## C7 -/

theorem checkMySequence_empty (s : sequence) (st : Store) (h1 : s.docType ≠ "")
    (h2 : s.id ≠ "") (hfaults : st.faults = [])
    (hdoc : st.hasDoc "sequence" s.docType s.id = false)
    (hempty : st.ids s.clientIndex s.clientDocType = []) :
    checkMySequence s st = (st, none) := by
  have hmaxid : getMaxID s st = .ok 0 := by
    rw [getMaxID_eq s st (by simp [hfaults]), hempty]
    rfl
  simp [checkMySequence, docExists, h1, h2, hfaults, hdoc, hmaxid]

theorem range_map_getLast (f : Nat → String) (k : Nat) (hk : 1 ≤ k) :
    ((List.range' 1 k).map f).getLast? = some (f k) := by
  obtain ⟨j, rfl⟩ : ∃ j, k = j + 1 := ⟨k - 1, by omega⟩
  rw [List.range'_concat, List.map_append]
  simp [Nat.add_comm]

/-- C7 (as stated, refuted): the cache size `4611686018427387904`, which is
`2 ^ 62`, is a non-negative `int`; on the empty store the product
`sequenceCacheSize * 2` wraps to `-9223372036854775808`, `make` panics in
`newSequence`, and no call of `GetID` ever returns. -/
theorem C7_counterexample :
    (0 : Int) ≤ 4611686018427387904 ∧ (4611686018427387904 : Int) ≤ maxInt ∧
    emptyStore.ids testClient.index testClient.docType = [] ∧
    emptyStore.hasDoc "sequence" testClient.index testClient.docType = false ∧
    wrapInt (4611686018427387904 * 2) = -9223372036854775808 ∧
    SetSequenceAutoIncrement testClient emptyStore 4611686018427387904 = .panic ∧
    SetSequenceAutoIncrementSeq testClient emptyStore 4611686018427387904 = .panic :=
  ⟨by decide, by decide, by decide, by decide, by decide, by decide, by decide⟩

/-- C7 (amended): on an empty target collection without counter document, in
a store whose calls succeed, for every configured cache size `c ≥ 0` whose
double fits an `int` the construction succeeds with cache size `c`, or 1
when `c` is 0, and in the sequential schedule the first `k` calls of `GetID`
return the decimal forms of `1, ..., k` in this order; the `k`-th call
returns the decimal form of `k`. -/
theorem C7_fresh_sequence_counts_from_one (es : Elastic) (st : Store) (c : Int)
    (hindex : es.index ≠ "") (htype : es.docType ≠ "") (hc : 0 ≤ c) (hr : c * 2 ≤ maxInt)
    (hfaults : st.faults = [])
    (hdoc : st.hasDoc "sequence" es.index es.docType = false)
    (hempty : st.ids es.index es.docType = []) :
    ∃ es1 st1 s1, SetSequenceAutoIncrementSeq es st c = .ok (es1, none, st1) ∧
      es1.sequence = some s1 ∧ s1.cacheSize = (if c = 0 then 1 else c) ∧
      ∀ k, ∃ r, GetIDs s1 st1 k = .ok r ∧
        r.ids = (List.range' 1 k).map (fun i => Itoa (Int.ofNat i)) ∧
        (1 ≤ k → r.ids.getLast? = some (Itoa (Int.ofNat k))) := by
  have hcs := checkSequenceIndex_ok st (by simp [hfaults])
  have hcheck := checkMySequence_empty
    (sequenceLiteral { es with sequenceCacheSize := if c = 0 then 1 else c })
    (checkSequenceIndex st).1 hindex htype (by rw [hcs.2.2, hfaults])
    (by rw [Store.hasDoc_congr _ _ hcs.2.1]; exact hdoc)
    (by rw [Store.ids_congr _ _ hcs.2.1]; exact hempty)
  have hr1 : c ≤ maxInt := by
    unfold maxInt at hr ⊢
    omega
  have hset := SetSequenceAutoIncrement_eq es st c hc hr (by simp [hfaults])
  rw [hcheck] at hset
  simp only at hset
  obtain ⟨es2, st2, s2, hseq, hs2, -, -, C, -, hC, hsize, -, -, -, hrun⟩ :=
    sequential_run es _ st _ c _ hset rfl hc hr1 (by rw [hcs.2.2, hfaults]; simp)
  have hv : (checkSequenceIndex st).1.version "sequence"
      (sequenceLiteral { es with sequenceCacheSize := if c = 0 then 1 else c }).docType
      (sequenceLiteral { es with sequenceCacheSize := if c = 0 then 1 else c }).id = 0 := by
    rw [Store.version_congr _ _ hcs.2.1]
    exact Store.version_of_not_hasDoc st _ _ _ hdoc
  rw [hv] at hrun
  refine ⟨es2, st2, s2, hseq, hs2, by rw [hsize, hC], ?_⟩
  intro k
  obtain ⟨r, hr, L, -, -, -, -, -, -, hids⟩ := hrun k
  have hids1 : r.ids = (List.range' 1 k).map (fun i => Itoa (Int.ofNat i)) := by
    simpa using hids
  exact ⟨r, hr, hids1, fun hk => hids1 ▸ range_map_getLast _ k hk⟩

/-- C7, at the scenario of the specification: empty collection, cache size
1, the first call of `GetID` returns `"1"`. -/
theorem C7_fresh_sequence_counts_from_one_witness :
    ∃ es1 st1 s1, SetSequenceAutoIncrementSeq testClient emptyStore 1 = .ok (es1, none, st1) ∧
      es1.sequence = some s1 ∧ s1.cacheSize = 1 ∧
      ∃ r, GetIDs s1 st1 1 = .ok r ∧ r.ids = ["1"] ∧ r.ids.getLast? = some "1" := by
  obtain ⟨es1, st1, s1, h1, h2, h3, h4⟩ := C7_fresh_sequence_counts_from_one testClient
    emptyStore 1 (by decide) (by decide) (by decide) (by decide) (by decide) (by decide)
    (by decide)
  obtain ⟨r, hr, hids, hlast⟩ := h4 1
  exact ⟨es1, st1, s1, h1, h2, h3, r, hr, hids, hlast (le_refl 1)⟩

/-! ## C8 -/

/-- C8: for a cache size `c ≥ 1`, after a construction whose refill has
completed, the first `N` calls of `GetID` in the sequential schedule start
at most `⌈N / c⌉` refills, and each refill is one bulk request of `c`
increments: the counter document has advanced by `c` per refill. -/
theorem C8_refills_at_most_ceil (es es1 : Elastic) (st st1 : Store) (c : Int) (s1 : sequence)
    (hc : 1 ≤ c) (hseq : SetSequenceAutoIncrementSeq es st c = .ok (es1, none, st1))
    (hs : es1.sequence = some s1) (N : Nat) :
    ∃ r, GetIDs s1 st1 N = .ok r ∧
      r.refills ≤ (N + c.toNat - 1) / c.toNat ∧
      r.st.version "sequence" s1.docType s1.id
        = st1.version "sequence" s1.docType s1.id + r.refills * c.toNat := by
  obtain ⟨v0, C, hC, hCc, -, -, -, -, hv, hrun⟩ := GetIDs_constructed es es1 st st1 c s1 hseq hs
  rw [if_neg (by omega)] at hCc
  have hCn : c.toNat = C := by omega
  obtain ⟨r, hr, L, -, hvr, -, hcL, hL2, hcount, -⟩ := hrun N
  refine ⟨r, hr, ?_, ?_⟩
  · rw [hCn, Nat.le_div_iff_mul_le (by omega)]
    omega
  · rw [hCn, hvr, hv]
    omega

/-- C8, at cache size 3 and 7 calls: at most 3 refills. -/
theorem C8_refills_at_most_ceil_witness :
    ∃ r, GetIDs
        { sequenceLiteral { testClient with sequenceCacheSize := 3 } with cache := [1, 2, 3] }
        { emptyStore with
            docs := [⟨"sequence", "unit_test", "sequence_test", 3⟩]
            indices := ["sequence"] } 7 = .ok r ∧
      r.refills ≤ 3 ∧
      r.st.version "sequence" "unit_test" "sequence_test" = 3 + r.refills * 3 :=
  C8_refills_at_most_ceil testClient _ emptyStore _ 3 _ (by decide)
    (show SetSequenceAutoIncrementSeq testClient emptyStore 3 = .ok
      ({ testClient with
          sequenceCacheSize := 3
          sequence := some
            { sequenceLiteral { testClient with sequenceCacheSize := 3 } with
              cache := [1, 2, 3] } },
        none,
        { emptyStore with
            docs := [⟨"sequence", "unit_test", "sequence_test", 3⟩]
            indices := ["sequence"] }) by decide)
    rfl 7

/-! ## C10 -/

/-- C10: for a cache size `c ≥ 1`, after a construction whose refill has
completed, the channel has capacity `2 * c`, and in the sequential schedule
the cache never holds more than that: after the construction (`N = 0`),
after each call of `GetID`, and after each refill that a call starts, which
therefore sends its `c` values without waiting. -/
theorem C10_cache_within_capacity (es es1 : Elastic) (st st1 : Store) (c : Int)
    (s1 : sequence) (hc : 1 ≤ c)
    (hseq : SetSequenceAutoIncrementSeq es st c = .ok (es1, none, st1))
    (hs : es1.sequence = some s1) :
    s1.cacheCap = 2 * c ∧
    ∀ N, ∃ r, GetIDs s1 st1 N = .ok r ∧ r.s.cacheCap = 2 * c ∧
      (r.s.cache.length : Int) ≤ 2 * c ∧
      (GetID.startsRefill r.s = true →
        ∃ s2 st2, loadIDs r.s r.st r.s.cacheSize = .ok (s2, st2) ∧
          s2.cache.length = r.s.cache.length + c.toNat ∧
          (s2.cache.length : Int) ≤ 2 * c) := by
  obtain ⟨v0, C, hC, hCc, hsize, hcap, hf, hid, hv, hrun⟩ :=
    GetIDs_constructed es es1 st st1 c s1 hseq hs
  rw [if_neg (by omega)] at hCc
  have hCn : c.toNat = C := by omega
  refine ⟨by rw [hcap, hCc], ?_⟩
  intro N
  obtain ⟨r, hr, L, hrs, hvr, hfr, hcL, hL2, -, -⟩ := hrun N
  have hlen : r.s.cache.length = L := by rw [hrs]; exact freshIDs_length _ _
  refine ⟨r, hr, by rw [hrs]; simp only [hcap, hCc], by rw [hlen]; omega, ?_⟩
  intro hstart
  have hLc : L ≤ C := by
    simp only [GetID.startsRefill, hlen, decide_eq_true_eq] at hstart
    rw [hrs] at hstart
    simp only [hsize] at hstart
    exact_mod_cast hstart
  have hrsize : r.s.cacheSize = c := by rw [hrs]; simp only [hsize, hCc]
  obtain ⟨st2, hload, -, -⟩ := loadIDs_ok r.s r.st r.s.cacheSize
    (by rw [hrs]; exact hid) (by rw [hfr]; exact hf) (by rw [hrsize]; omega)
    (by
      rw [hlen, hrsize]
      have : r.s.cacheCap = 2 * c := by rw [hrs]; simp only [hcap, hCc]
      rw [this]; omega)
  refine ⟨_, st2, hload, ?_, ?_⟩
  · simp only [List.length_append, freshIDs_length, hrsize]
  · simp only [List.length_append, freshIDs_length, hrsize, hlen]
    push_cast
    omega

/-- C10, at cache size 3: the capacity is 6; after 3 calls the cache holds 3
values, the fourth call starts a refill, and after that refill the cache
holds 6 values. -/
theorem C10_cache_within_capacity_witness :
    ∃ r, GetIDs
        { sequenceLiteral { testClient with sequenceCacheSize := 3 } with cache := [1, 2, 3] }
        { emptyStore with
            docs := [⟨"sequence", "unit_test", "sequence_test", 3⟩]
            indices := ["sequence"] } 3 = .ok r ∧
      r.s.cacheCap = 2 * 3 ∧ (r.s.cache.length : Int) ≤ 2 * 3 ∧
      (GetID.startsRefill r.s = true →
        ∃ s2 st2, loadIDs r.s r.st r.s.cacheSize = .ok (s2, st2) ∧
          s2.cache.length = r.s.cache.length + (3 : Int).toNat ∧
          (s2.cache.length : Int) ≤ 2 * 3) :=
  (C10_cache_within_capacity testClient _ emptyStore _ 3 _ (by decide)
    (show SetSequenceAutoIncrementSeq testClient emptyStore 3 = .ok
      ({ testClient with
          sequenceCacheSize := 3
          sequence := some
            { sequenceLiteral { testClient with sequenceCacheSize := 3 } with
              cache := [1, 2, 3] } },
        none,
        { emptyStore with
            docs := [⟨"sequence", "unit_test", "sequence_test", 3⟩]
            indices := ["sequence"] }) by decide)
    rfl).2 3

end Elasticsearchv5
